import Mathlib

/-!
# A shallow embedding of the cborX codec (src/cborx)

This file embeds the parts of `cborx/encoder.py`, `cborx/decoder.py`,
`cborx/packing.py`, `cborx/util.py` and `cborx/types.py` that the verified
claims are about, and proves or refutes each claim.

Conventions of the embedding:

* A Python `bytes` object is a `List Nat` (each element a byte value).
* Python `int` is `Int`; lengths are `Nat`.
* A function that can raise is `Except PyError _` (encoder side) or
  `Except DecodeError _` (decoder side); the error constructors mirror the
  exception classes of `cborx/types.py` plus the host (non-CBOR) exceptions
  that can escape (`TypeError`, `ValueError`, `OverflowError`).
* Recursion over the byte stream / over values uses an explicit fuel
  parameter where CPython uses unbounded recursion; fuel exhaustion is the
  embedding's counterpart of CPython's `RecursionError` and is reported by a
  dedicated error constructor that no claim identifies with a CBOR error.
-/

namespace CborX

/-- Errors that the encoder can raise.  `typeError`, `overflowError` and
`valueError` are the host exceptions; `encodingError` is
`CBOREncodingError`; `recursionError` models CPython's recursion limit
(reached only when the explicit fuel runs out); `unmodeled` marks encoder
paths (IEEE-float packing, `array`/set/datetime re-encoding) that no claim
exercises and that this embedding deliberately does not model. -/
inductive PyError where
  | typeError
  | overflowError
  | valueError
  | encodingError
  | recursionError
  | unmodeled
  deriving Repr, DecidableEq

/-- Errors raised while decoding, mirroring the exception hierarchy of
`cborx/types.py` (lines 55-129).  `valueError` is a host `ValueError` that
escapes the decoder (it is not a `CBORError`); `outOfFuel` is the
embedding's recursion bound; `unmodeled` marks default tag decoders
(datetime, decimal, shared refs, ...) that no claim exercises. -/
inductive DecodeErrorKind where
  | badInitialByte
  | misplacedBreak
  | badSimple
  | unexpectedEOF
  | unconsumedData
  | stringEncoding
  | duplicateKeyKind
  | tagError
  | deterministicError
  | valueError
  | outOfFuel
  | unmodeled
  deriving Repr, DecidableEq

/-- `IllFormedError` subclasses of `cborx/types.py`. -/
def DecodeErrorKind.isIllFormed : DecodeErrorKind → Bool
  | .badInitialByte | .misplacedBreak | .badSimple
  | .unexpectedEOF | .unconsumedData => true
  | _ => false

/-- `InvalidError` subclasses of `cborx/types.py` (well-formed CBOR that
violates a validity rule). -/
def DecodeErrorKind.isInvalid : DecodeErrorKind → Bool
  | .stringEncoding | .duplicateKeyKind | .tagError | .deterministicError => true
  | _ => false

/-- Big-endian bytes of `n`, exactly `w` bytes (the value of
`pack_be_uint16` / `pack_be_uint32` / `pack_be_uint64` from
`cborx/packing.py`, parameterised by the width). -/
def beBytes : Nat → Nat → List Nat
  | 0, _ => []
  | w + 1, n => beBytes w (n / 256) ++ [n % 256]

/-- Big-endian value of a byte list (the value `unpack_be_uint16` /
`unpack_be_uint32` / `unpack_be_uint64` return). -/
def beValue (bs : List Nat) : Nat := bs.foldl (fun acc b => acc * 256 + b) 0

/-- The Python value model the codec works over.  `text` holds the UTF-8
encoding of the `str` (UTF-8 encoding is a bijection on strings, so nothing
is lost); `list` stands for both `list` and `tuple` (both encode through
the same generator, and no claim depends on the distinction); `map` is a
`dict` (or `FrozenDict`) as its insertion-ordered key/value pairs;
`float` carries the width and raw IEEE bytes of a decoded float (no claim
depends on float numeric semantics); `typedArray` holds a decoded
`array.array` as its item size and machine-order element byte groups;
`ipNetwork` is an `IPv4Network`/`IPv6Network` as packed network-address
bytes plus prefix length. -/
inductive Value where
  | int (n : Int)
  | bytes (bs : List Nat)
  | text (utf8 : List Nat)
  | list (xs : List Value)
  | map (pairs : List (Value × Value))
  | bool (b : Bool)
  | null
  | undefined
  | simple (n : Nat)
  | tag (t : Nat) (v : Value)
  | float (width : Nat) (raw : List Nat)
  | typedArray (itemsize : Nat) (elems : List (List Nat))
  | ipNetwork (addr : List Nat) (prefixlen : Nat)

/-- A decoder error; `duplicateKey` carries the list of duplicated keys the
`DuplicateKeyError` message names (decoder.py lines 271-275). -/
inductive DecodeError where
  | simple (k : DecodeErrorKind)
  | duplicateKey (dups : List Value)

/-- The family of a decoder error. -/
def DecodeError.kind : DecodeError → DecodeErrorKind
  | .simple k => k
  | .duplicateKey _ => .duplicateKeyKind

def DecodeError.isIllFormed (e : DecodeError) : Bool := e.kind.isIllFormed

def DecodeError.isInvalid (e : DecodeError) : Bool := e.kind.isInvalid

/-! ## Python comparison semantics

The encoder sorts map pairs with Python's `sorted`, which compares
`(encoded_key_bytes, value)` tuples with `<` and `==`.  `pyEq` and `pyLt`
embed CPython `==` / `<` on the fragment of values the codec produces:

* numbers: `bool` is a subtype of `int` and compares numerically
  (`False == 0`, `True == 1`);
* `bytes` / `str`: structural, `<` is lexicographic (on `str`, code-point
  order, which equals byte order of the UTF-8 encoding);
* lists/tuples: element-wise (`<` lexicographic);
* decoded maps are `FrozenDict` instances; `FrozenDict` subclasses
  `collections.abc.Mapping` and so inherits its *structural* `__eq__`.
  The embedding does **not** model that equality — the map arm of `pyEq`
  returns `false` — so any theorem that needs `pyEq` to agree with
  CPython `==` restricts the values compared to `exact_key` below, which
  excludes maps;
* `None`, `Undefined`, `CBORSimple`, `CBORTag`: per their classes
  (`CBORSimple`/`CBORTag` are frozen `attr` classes with structural
  equality and hash);
* everything else is unordered: `<` raises `TypeError`.

Also outside the embedding, and excluded from `exact_key`: IEEE-float
numeric equality (`1 == 1.0`, half `1.0 ==` double `1.0`, `nan != nan`) —
`float` values compare by width and raw bytes here — and the host
`TypeError` CPython raises when an unhashable `array.array` key is
inserted into a dict. -/

mutual

def pyEq : Value → Value → Bool
  | .int m, .int n => m == n
  | .int m, .bool b => m == (if b then 1 else 0)
  | .bool b, .int n => (if b then (1 : Int) else 0) == n
  | .bool a, .bool b => a == b
  | .bytes a, .bytes b => a == b
  | .text a, .text b => a == b
  | .null, .null => true
  | .undefined, .undefined => true
  | .simple a, .simple b => a == b
  | .tag s v, .tag t w => s == t && pyEq v w
  | .list xs, .list ys => pyEqList xs ys
  | .map _, .map _ => false
  | .float w a, .float x b => w == x && a == b
  | .typedArray s a, .typedArray t b => s == t && a == b
  | .ipNetwork a m, .ipNetwork b n => a == b && m == n
  | _, _ => false

def pyEqList : List Value → List Value → Bool
  | [], [] => true
  | x :: xs, y :: ys => pyEq x y && pyEqList xs ys
  | _, _ => false

end

mutual

/-- The decoded key values on which the embedding is exact about CPython
dict-key behaviour: every such value is hashable, and on any two such
values `pyEq` coincides with CPython `==`.  Covered: ints, bools, byte
strings, text strings, `None`, `Undefined`, `CBORSimple`, and `CBORTag` /
tuples over such values (keys are decoded under `DecoderFlags.IMMUTABLE`,
so nested arrays are tuples).  Excluded, because the embedding's equality
is deliberately simpler than CPython's there: maps (`FrozenDict` inherits
the structural `Mapping.__eq__`), floats (cross-width numeric equality,
`nan != nan`), typed arrays (`array.array` is unhashable — inserting one
as a dict key raises the host `TypeError`, which `dict_insert` does not
model) and IP networks. -/
def exact_key : Value → Bool
  | .int _ => true
  | .bool _ => true
  | .bytes _ => true
  | .text _ => true
  | .null => true
  | .undefined => true
  | .simple _ => true
  | .tag _ v => exact_key v
  | .list xs => exact_key_list xs
  | _ => false

/-- `exact_key` on every element of a list. -/
def exact_key_list : List Value → Bool
  | [] => true
  | x :: xs => exact_key x && exact_key_list xs

end

/-- Lexicographic `<` on byte strings (Python `bytes.__lt__`): a strict
prefix is smaller. -/
def lexLtBytes : List Nat → List Nat → Bool
  | [], [] => false
  | [], _ :: _ => true
  | _ :: _, [] => false
  | a :: as, b :: bs => a < b || (a == b && lexLtBytes as bs)

mutual

def pyLt : Value → Value → Except PyError Bool
  | .int m, .int n => .ok (decide (m < n))
  | .int m, .bool b => .ok (decide (m < (if b then 1 else 0)))
  | .bool b, .int n => .ok (decide ((if b then (1 : Int) else 0) < n))
  | .bool a, .bool b => .ok (decide ((if a then (1 : Int) else 0) < (if b then 1 else 0)))
  | .bytes a, .bytes b => .ok (lexLtBytes a b)
  | .text a, .text b => .ok (lexLtBytes a b)
  | .list xs, .list ys => pyLtList xs ys
  | _, _ => .error .typeError

def pyLtList : List Value → List Value → Except PyError Bool
  | [], [] => .ok false
  | [], _ :: _ => .ok true
  | _ :: _, [] => .ok false
  | x :: xs, y :: ys =>
    if pyEq x y then pyLtList xs ys else pyLt x y

end

/-! ## Sorting

CPython's `sorted` is a stable comparison sort.  `stableSort` (and its
monadic variant, for comparisons that can raise `TypeError`) is a stable
insertion sort: it agrees with `sorted` on every input on which no
comparison raises. -/

def insertSorted (lt : α → α → Bool) (x : α) : List α → List α
  | [] => [x]
  | h :: t => if lt x h then x :: h :: t else h :: insertSorted lt x t

def stableSort (lt : α → α → Bool) (xs : List α) : List α :=
  xs.foldl (fun acc x => insertSorted lt x acc) []

def insertSortedM (lt : α → α → Except PyError Bool) (x : α) : List α → Except PyError (List α)
  | [] => .ok [x]
  | h :: t => do
    if (← lt x h) then pure (x :: h :: t) else pure (h :: (← insertSortedM lt x t))

def stableSortM (lt : α → α → Except PyError Bool) (xs : List α) : Except PyError (List α) :=
  xs.foldlM (fun acc x => insertSortedM lt x acc) []

/-! ## Encoder (`cborx/encoder.py`) -/

/-- `CBORSortMethod` (encoder.py lines 67-70). -/
inductive CBORSortMethod where
  | lexicographic
  | length_first
  | unsorted
  deriving Repr, DecidableEq

/-- The encoder options the claims exercise (encoder.py lines 93-108);
`tzinfo`, `datetime_style`, `float_style`, `float_integer_identity` and
`realize_il` only affect value kinds outside this embedding. -/
structure CBOREncoderOptions where
  sort_method : CBORSortMethod := .lexicographic
  deterministic : Bool := true

/-- `default_encoder_options` (encoder.py line 111). -/
def default_encoder_options : CBOREncoderOptions := {}

/-- Python `<` on a `(encoded_key_bytes, value)` pair as produced in
`_sorted_dict_parts`: tuple comparison compares the byte strings and, only
when they are equal, the (unencoded) values. -/
def pair_lt (a b : List Nat × Value) : Except PyError Bool :=
  if a.1 = b.1 then pyLt a.2 b.2 else .ok (lexLtBytes a.1 b.1)

/-- `sorted_pairs` (encoder.py lines 73-80), generic in the element type so
that the same embedded function also sorts pairs decorated with their
pre-encoded values (see `sorted_dict_parts`).

For `LENGTH_FIRST` the source passes `key=lambda k, v: (len(k), k)`:
the lambda takes two positional parameters, but `sorted` calls the key
function with each pair as a *single* argument, so CPython raises
`TypeError` on the first key call — i.e. for every non-empty sequence of
pairs.  (`sorted` first materialises the generator, encoding the keys,
which the caller has already done here.) -/
def sorted_pairs_gen (lt : α → α → Except PyError Bool) (pairs : List α)
    (method : CBORSortMethod) : Except PyError (List α) :=
  match method with
  | .lexicographic => stableSortM lt pairs
  | .length_first =>
    match pairs with
    | [] => .ok []
    | _ :: _ => .error .typeError
  | .unsorted => .ok pairs

/-- `sorted_pairs` exactly as the source applies it to `(encoded_key,
value)` pairs. -/
def sorted_pairs (pairs : List (List Nat × Value)) (method : CBORSortMethod) :
    Except PyError (List (List Nat × Value)) :=
  sorted_pairs_gen pair_lt pairs method

/-- `sorted_items` (encoder.py lines 83-90): sorts already-encoded items
(byte strings).  `LENGTH_FIRST` here uses the well-formed
`key=lambda item: (len(item), item)`. -/
def sorted_items (items : List (List Nat)) (method : CBORSortMethod) : List (List Nat) :=
  match method with
  | .lexicographic => stableSort (fun a b => lexLtBytes a b) items
  | .length_first =>
    stableSort (fun a b => a.length < b.length || (a.length == b.length && lexLtBytes a b)) items
  | .unsorted => items

/-- `CBOREncoder.length_parts` (encoder.py lines 140-158): the header for a
length/value and a shifted major type; values `2^64` and beyond raise
`OverflowError`. -/
def length_parts (length major : Nat) : Except PyError (List Nat) :=
  if length < 24 then .ok [major + length]
  else if length < 256 then .ok [major + 24, length]
  else if length < 65536 then .ok ([major + 25] ++ beBytes 2 length)
  else if length < 4294967296 then .ok ([major + 26] ++ beBytes 4 length)
  else if length < 18446744073709551616 then .ok ([major + 27] ++ beBytes 8 length)
  else .error .overflowError

/-- `(value.bit_length() + 7) // 8`. -/
def byteLength (n : Nat) : Nat := ((if n = 0 then 0 else Nat.log2 n + 1) + 7) / 8

/-- `CBOREncoder.int_parts` (encoder.py lines 160-172).  An overflowing
magnitude falls back to a bignum tag (0xc2 unsigned / 0xc3 negative)
wrapping the big-endian magnitude bytes. -/
def int_parts (v : Int) : List Nat :=
  let value : Nat := if v < 0 then (-1 - v).toNat else v.toNat
  let major : Nat := if v < 0 then 0x20 else 0x00
  match length_parts value major with
  | .ok bs => bs
  | .error _ =>
    let bignum := beBytes (byteLength value) value
    (if major ≠ 0 then [0xc3] else [0xc2]) ++
      (match length_parts bignum.length 0x40 with
       | .ok hdr => hdr ++ bignum
       | .error _ => [])

/-- `CBOREncoder.byte_string_parts` (encoder.py lines 174-177). -/
def byte_string_parts (value : List Nat) : Except PyError (List Nat) := do
  pure ((← length_parts value.length 0x40) ++ value)

/-- `CBOREncoder.text_string_parts` (encoder.py lines 179-183); the `str`
is modelled by its UTF-8 bytes, so `value.encode()` is the identity. -/
def text_string_parts (value : List Nat) : Except PyError (List Nat) := do
  pure ((← length_parts value.length 0x60) ++ value)

/-- `CBOREncoder.bool_parts` (encoder.py lines 221-223). -/
def bool_parts (b : Bool) : List Nat := if b then [0xf5] else [0xf4]

/-- `CBOREncoder.ip_network_parts` (encoder.py lines 319-324).  After the
tag-261 header the source runs `self._sorted_dict_parts(pairs)`, but
`_sorted_dict_parts(self, kv_pairs, sort_method)` requires the
`sort_method` positional argument: CPython raises
`TypeError: _sorted_dict_parts() missing 1 required positional argument`
as soon as `encode`'s `b''.join` advances the generator, so no bytes are
ever returned. -/
def ip_network_parts (_addr : List Nat) (_prefixlen : Nat) : Except PyError (List Nat) :=
  .error .typeError

/-! ### Type dispatch (`_lookup_encoder`, `default_generators`)

`CBOREncoder._lookup_encoder` (encoder.py lines 121-138) first looks the
value's exact type up in the `default_generators` dict — tuple keys such as
`(tuple, list)` can never equal a type, so only single-type keys can hit —
then (no embedded type defines `__cbor_parts__`) scans the entries in
insertion order with `isinstance`, which honours subtyping (`bool` is a
subclass of `int`).  Types whose values are outside the embedded `Value`
model keep their table entries so that the scan order is faithful. -/

/-- The Python types appearing in `default_generators`
(encoder.py lines 360-380), plus `object` for embedded values whose type
has no entry and no `__cbor_parts__` (e.g. `CBORTag`, `CBORSimple`,
`Undefined`), which `_lookup_encoder` rejects with `CBOREncodingError`. -/
inductive PyType where
  | int | bool | bytesT | bytearray | memoryview | str | tuple | listT | dict
  | noneType | float | set | frozenset | orderedDict | arrayT | datetime
  | date | decimal | regexpT | uuid | fraction
  | ipv4addr | ipv6addr | ipv4net | ipv6net | object
  deriving Repr, DecidableEq

/-- A `default_generators` key: a single type or a tuple of types. -/
inductive PyKey where
  | single (t : PyType)
  | tup (ts : List PyType)
  deriving Repr, DecidableEq

/-- The generator names of `default_generators`. -/
inductive GenName where
  | int_parts | byte_string_parts | text_string_parts | sorted_list_parts
  | dict_parts | bool_parts | None_parts | float_parts | set_parts
  | ordered_dict_parts | array_parts | datetime_parts | date_parts
  | decimal_parts | regexp_parts | uuid_parts | fraction_parts
  | ip_address_parts | ip_network_parts
  deriving Repr, DecidableEq

/-- `default_generators` (encoder.py lines 360-380), in source order. -/
def default_generators : List (PyKey × GenName) :=
  [ (.single .int, .int_parts),
    (.tup [.bytesT, .bytearray, .memoryview], .byte_string_parts),
    (.single .str, .text_string_parts),
    (.tup [.tuple, .listT], .sorted_list_parts),
    (.single .dict, .dict_parts),
    (.single .bool, .bool_parts),
    (.single .noneType, .None_parts),
    (.single .float, .float_parts),
    (.tup [.set, .frozenset], .set_parts),
    (.single .orderedDict, .ordered_dict_parts),
    (.single .arrayT, .array_parts),
    (.single .datetime, .datetime_parts),
    (.single .date, .date_parts),
    (.single .decimal, .decimal_parts),
    (.single .regexpT, .regexp_parts),
    (.single .uuid, .uuid_parts),
    (.single .fraction, .fraction_parts),
    (.tup [.ipv4addr, .ipv6addr], .ip_address_parts),
    (.tup [.ipv4net, .ipv6net], .ip_network_parts) ]

/-- `type(value)` for embedded values.  `Value.list` plays the Python
`list` (the `tuple`/`list` distinction changes nothing the claims see:
both types share one generator);  an `ipNetwork` with a 4-byte address is
an `IPv4Network`, else an `IPv6Network`. -/
def type_of : Value → PyType
  | .int _ => .int
  | .bool _ => .bool
  | .bytes _ => .bytesT
  | .text _ => .str
  | .list _ => .listT
  | .map _ => .dict
  | .null => .noneType
  | .float _ _ => .float
  | .typedArray _ _ => .arrayT
  | .ipNetwork addr _ => if addr.length = 4 then .ipv4net else .ipv6net
  | .undefined | .simple _ | .tag _ _ => .object

/-- `isinstance(value, kind)` for a value of type `t` against a single
registered type `k`: `bool` is a subclass of `int`, `OrderedDict` of
`dict`. -/
def isinstanceOf (t k : PyType) : Bool :=
  t == k || (t == .bool && k == .int) || (t == .orderedDict && k == .dict)

/-- Whether `isinstance(value, key)` holds for a table key. -/
def isinstanceKey (t : PyType) : PyKey → Bool
  | .single k => isinstanceOf t k
  | .tup ks => ks.any (isinstanceOf t)

/-- `CBOREncoder._lookup_encoder` (encoder.py lines 121-138): exact-type
dict lookup, then the `isinstance` scan in table order, else
`CBOREncodingError`. -/
def lookup_encoder (v : Value) : Except PyError GenName :=
  let vtype := type_of v
  match default_generators.find? (fun e => e.1 == PyKey.single vtype) with
  | some e => .ok e.2
  | none =>
    match default_generators.find? (fun e => isinstanceKey vtype e.1) with
    | some e => .ok e.2
    | none => .error .encodingError

/-! ### The recursive part of the encoder

Fuel models CPython's recursion limit: each nesting level of generator
frames consumes one unit, and running out is the embedding's
`RecursionError`.  Sibling elements of one list/map are encoded at the same
depth, hence with the same fuel.

One deliberate reordering: the source's `_sorted_dict_parts` encodes the
values lazily *after* sorting (generators), while the embedding encodes
them together with the keys *before* sorting and carries them through the
sort.  The emitted bytes (and the sort comparisons, which only see
`(encoded_key, value)` pairs) are identical; the difference is observable
only in *which* exception wins when both a value encoding and the sort
would raise, which no claim touches. -/

/-- The pair preparation of `_sorted_dict_parts`: encode each key (and,
deferred in the source but order-equivalent, each value) with the given
encoder, producing `((encoded_key, value), encoded_value)` triples; the
sort only ever inspects the `(encoded_key, value)` component, exactly the
tuples CPython sorts. -/
def encode_pairs (f : Value → Except PyError (List Nat)) :
    List (Value × Value) → Except PyError (List ((List Nat × Value) × List Nat))
  | [] => .ok []
  | kv :: rest => do
    pure ((((← f kv.1), kv.2), (← f kv.2)) :: (← encode_pairs f rest))

mutual

/-- `CBOREncoder.generate_parts` (encoder.py lines 334-336). -/
def generate_parts (o : CBOREncoderOptions) : Nat → Value → Except PyError (List Nat)
  | 0, _ => .error .recursionError
  | fuel + 1, v =>
    match lookup_encoder v with
    | .error e => .error e
    | .ok g => run_generator o fuel g v

/-- Applying the looked-up generator to the value.  The final catch-all is
the generators' `assert isinstance(...)` guard; via `lookup_encoder` it is
unreachable. -/
def run_generator (o : CBOREncoderOptions) : Nat → GenName → Value → Except PyError (List Nat)
  | 0, _, _ => .error .recursionError
  | _ + 1, .int_parts, .int n => .ok (int_parts n)
  | _ + 1, .int_parts, .bool b => .ok (int_parts (if b then 1 else 0))
  | _ + 1, .byte_string_parts, .bytes bs => byte_string_parts bs
  | _ + 1, .text_string_parts, .text t => text_string_parts t
  | fuel + 1, .sorted_list_parts, .list xs => sorted_list_parts o fuel xs
  | fuel + 1, .dict_parts, .map ps => sorted_dict_parts o fuel ps o.sort_method
  | _ + 1, .bool_parts, .bool b => .ok (bool_parts b)
  | _ + 1, .None_parts, .null => .ok [0xf6]
  | _ + 1, .ip_network_parts, .ipNetwork addr plen => ip_network_parts addr plen
  | _ + 1, .float_parts, _ => .error .unmodeled
  | _ + 1, .array_parts, _ => .error .unmodeled
  | _ + 1, .set_parts, _ => .error .unmodeled
  | _ + 1, .ordered_dict_parts, _ => .error .unmodeled
  | _ + 1, .datetime_parts, _ => .error .unmodeled
  | _ + 1, .date_parts, _ => .error .unmodeled
  | _ + 1, .decimal_parts, _ => .error .unmodeled
  | _ + 1, .regexp_parts, _ => .error .unmodeled
  | _ + 1, .uuid_parts, _ => .error .unmodeled
  | _ + 1, .fraction_parts, _ => .error .unmodeled
  | _ + 1, .ip_address_parts, _ => .error .unmodeled
  | _ + 1, _, _ => .error .typeError

/-- `CBOREncoder.sorted_list_parts` (encoder.py lines 191-196): header,
encode every element, then sort the *encoded* items per the options' sort
method. -/
def sorted_list_parts (o : CBOREncoderOptions) : Nat → List Value → Except PyError (List Nat)
  | 0, _ => .error .recursionError
  | fuel + 1, xs => do
    let hdr ← length_parts xs.length 0x80
    let items ← xs.mapM (fun x => generate_parts o fuel x)
    pure (hdr ++ (sorted_items items o.sort_method).flatten)

/-- `CBOREncoder._sorted_dict_parts` (encoder.py lines 198-204): header,
encode the keys, sort the `(encoded_key, value)` pairs per `sort_method`,
then emit each encoded key followed by its encoded value.
`CBOREncoder.dict_parts` (lines 206-208) is this applied to the options'
sort method, which `run_generator` does at the `.dict_parts` arm. -/
def sorted_dict_parts (o : CBOREncoderOptions) :
    Nat → List (Value × Value) → CBORSortMethod → Except PyError (List Nat)
  | 0, _, _ => .error .recursionError
  | fuel + 1, ps, method => do
    let hdr ← length_parts ps.length 0xa0
    let pairs ← encode_pairs (generate_parts o fuel) ps
    let sorted ← sorted_pairs_gen (fun a b => pair_lt a.1 b.1) pairs method
    pure (hdr ++ (sorted.map (fun q => q.1.1 ++ q.2)).flatten)

end

/-- CPython's default recursion limit, the bound `encode` runs under. -/
def pythonRecursionLimit : Nat := 1000

/-- `CBOREncoder.encode` (encoder.py lines 340-341). -/
def encode (o : CBOREncoderOptions) (v : Value) : Except PyError (List Nat) :=
  generate_parts o pythonRecursionLimit v

/-! ## Decoder (`cborx/decoder.py`)

The byte stream is a `List Nat`; `self.read(n)` returns the first `n`
bytes and the remaining stream, or `UnexpectedEOFError`.  The decoder is
embedded at the `loads` defaults: `retain_bignums=False`, no custom tag
decoders, `simple_value=CBORSimple`, `check_eof=True`.  The
`IMMUTABLE`/`ORDERED` decoder flags only select container flavours
(`tuple`/`FrozenDict`/`OrderedDict`) that the `Value` model does not
distinguish, so they are not threaded through. -/

namespace CBORDecoder

/-- The `DeterministicFlags` a decoder can be constructed with
(decoder.py lines 70-77), restricted to the flags the claims exercise:
`LENGTH` (minimal-length headers) and `REALIZE_IL` (forbid
indefinite-length items).  The `FLOAT` flag needs IEEE width-conversion
semantics and no claim uses it; `SORTING` is never consulted by
`decoder.py`. -/
structure DeterministicFlags where
  length : Bool := false
  realize_il : Bool := false

/-- The flags `loads` runs with by default (`DeterministicFlags.NONE`). -/
def noFlags : DeterministicFlags := {}

/-- `CBORDecoder.read` (decoder.py lines 454-458). -/
def readN (n : Nat) (input : List Nat) : Except DecodeError (List Nat × List Nat) :=
  if n ≤ input.length then .ok (input.take n, input.drop n)
  else .error (.simple .unexpectedEOF)

/-- `ord(self.read(1))`. -/
def read1 (input : List Nat) : Except DecodeError (Nat × List Nat) :=
  match input with
  | [] => .error (.simple .unexpectedEOF)
  | b :: rest => .ok (b, rest)

/-- `uint_minima` (decoder.py line 81): the smallest argument that needs
each multi-byte width. -/
def uint_minima : Nat → Nat
  | 0 => 24
  | 1 => 256
  | 2 => 65536
  | _ => 4294967296

/-- `CBORDecoder.decode_length` (decoder.py lines 161-178).  `self.read(1
<< kind)` and the big-endian unpack are inlined as the guarded
`take`/`drop`; the result is `-1` for the four indefinite-length initial
bytes, mirroring the source.  With the `LENGTH` deterministic flag, a
multi-byte argument below its width's minimum raises
`DeterministicError` (the three source branches differ only in message
text). -/
def decode_length (det : DeterministicFlags) (ib : Nat) (input : List Nat) :
    Except DecodeError (Int × List Nat) :=
  if ib % 32 < 24 then .ok ((ib % 32 : Nat), input)
  else if ib % 32 < 28 then
    if 2 ^ (ib % 32 - 24) ≤ input.length then
      if det.length = true ∧ beValue (input.take (2 ^ (ib % 32 - 24))) < uint_minima (ib % 32 - 24)
      then .error (.simple .deterministicError)
      else .ok ((beValue (input.take (2 ^ (ib % 32 - 24))) : Nat), input.drop (2 ^ (ib % 32 - 24)))
    else .error (.simple .unexpectedEOF)
  else if ib = 0x5f ∨ ib = 0x7f ∨ ib = 0x9f ∨ ib = 0xbf then .ok (-1, input)
  else .error (.simple .badInitialByte)

/-- `CBORDecoder._byte_string_parts` (decoder.py lines 186-195): inside an
indefinite-length byte string, repeatedly decode definite-length
byte-string chunks (initial byte `0x40`-`0x5b`) until a Break `0xff`; any
other initial byte is `BadInitialByteError`.  Returns the concatenated
chunks and the remaining stream. -/
def byte_string_parts (det : DeterministicFlags) (input : List Nat) :
    Except DecodeError (List Nat × List Nat) :=
  match input with
  | [] => .error (.simple .unexpectedEOF)
  | ib :: rest =>
    if 0x40 ≤ ib ∧ ib < 0x5c then
      match h1 : decode_length det ib rest with
      | .error e => .error e
      | .ok (len, rest2) =>
        match h2 : readN len.toNat rest2 with
        | .error e => .error e
        | .ok (chunk, rest3) =>
          match byte_string_parts det rest3 with
          | .error e => .error e
          | .ok (chunks, rest4) => .ok (chunk ++ chunks, rest4)
    else if ib = 0xff then .ok ([], rest)
    else .error (.simple .badInitialByte)
termination_by input.length
decreasing_by
  have hle : rest2.length ≤ rest.length := by
    unfold decode_length at h1
    split_ifs at h1 <;> cases h1 <;> simp
  have hle2 : rest3.length ≤ rest2.length := by
    unfold readN at h2
    split_ifs at h2 <;> cases h2 <;> simp
  simp only [List.length_cons]
  omega

/-- `CBORDecoder.decode_byte_string` (decoder.py lines 197-203). -/
def decode_byte_string (det : DeterministicFlags) (ib : Nat) (input : List Nat) :
    Except DecodeError (Value × List Nat) := do
  let (len, rest) ← decode_length det ib input
  if len = -1 then
    if det.realize_il then .error (.simple .deterministicError)
    else do
      let (bs, rest2) ← byte_string_parts det rest
      pure (.bytes bs, rest2)
  else do
    let (bs, rest2) ← readN len.toNat rest
    pure (.bytes bs, rest2)

/-- A UTF-8 continuation byte. -/
def isUtf8Cont (b : Nat) : Bool := 0x80 ≤ b && b < 0xc0

/-- Validity of a byte list as UTF-8 (what `bytes.decode()` accepts:
no overlong forms, no surrogates, nothing above U+10FFFF). -/
def isValidUtf8 : List Nat → Bool
  | [] => true
  | b :: rest =>
    if b < 0x80 then isValidUtf8 rest
    else if b < 0xc2 then false
    else if b < 0xe0 then
      match rest with
      | c :: rest2 => isUtf8Cont c && isValidUtf8 rest2
      | _ => false
    else if b = 0xe0 then
      match rest with
      | c :: d :: rest2 => (0xa0 ≤ c && c < 0xc0) && isUtf8Cont d && isValidUtf8 rest2
      | _ => false
    else if b = 0xed then
      match rest with
      | c :: d :: rest2 => (0x80 ≤ c && c < 0xa0) && isUtf8Cont d && isValidUtf8 rest2
      | _ => false
    else if b < 0xf0 then
      match rest with
      | c :: d :: rest2 => isUtf8Cont c && isUtf8Cont d && isValidUtf8 rest2
      | _ => false
    else if b = 0xf0 then
      match rest with
      | c :: d :: e :: rest2 =>
        (0x90 ≤ c && c < 0xc0) && isUtf8Cont d && isUtf8Cont e && isValidUtf8 rest2
      | _ => false
    else if b < 0xf4 then
      match rest with
      | c :: d :: e :: rest2 => isUtf8Cont c && isUtf8Cont d && isUtf8Cont e && isValidUtf8 rest2
      | _ => false
    else if b = 0xf4 then
      match rest with
      | c :: d :: e :: rest2 =>
        (0x80 ≤ c && c < 0x90) && isUtf8Cont d && isUtf8Cont e && isValidUtf8 rest2
      | _ => false
    else false

/-- `decode_text` (decoder.py lines 104-108): UTF-8-validate the raw
bytes; the resulting `str` is represented by those bytes. -/
def decode_text (raw : List Nat) : Except DecodeError Value :=
  if isValidUtf8 raw then .ok (.text raw) else .error (.simple .stringEncoding)

/-- `CBORDecoder._text_string_parts` (decoder.py lines 205-214): like
`_byte_string_parts` with text-string chunks (`0x60`-`0x7b`), each chunk
UTF-8-validated on its own; the chunk strings are joined, i.e. their UTF-8
encodings concatenated. -/
def text_string_parts (det : DeterministicFlags) (input : List Nat) :
    Except DecodeError (List Nat × List Nat) :=
  match input with
  | [] => .error (.simple .unexpectedEOF)
  | ib :: rest =>
    if 0x60 ≤ ib ∧ ib < 0x7c then
      match h1 : decode_length det ib rest with
      | .error e => .error e
      | .ok (len, rest2) =>
        match h2 : readN len.toNat rest2 with
        | .error e => .error e
        | .ok (chunk, rest3) =>
          if isValidUtf8 chunk then
            match text_string_parts det rest3 with
            | .error e => .error e
            | .ok (chunks, rest4) => .ok (chunk ++ chunks, rest4)
          else .error (.simple .stringEncoding)
    else if ib = 0xff then .ok ([], rest)
    else .error (.simple .badInitialByte)
termination_by input.length
decreasing_by
  have hle : rest2.length ≤ rest.length := by
    unfold decode_length at h1
    split_ifs at h1 <;> cases h1 <;> simp
  have hle2 : rest3.length ≤ rest2.length := by
    unfold readN at h2
    split_ifs at h2 <;> cases h2 <;> simp
  simp only [List.length_cons]
  omega

/-- `CBORDecoder.decode_text_string` (decoder.py lines 216-222). -/
def decode_text_string (det : DeterministicFlags) (ib : Nat) (input : List Nat) :
    Except DecodeError (Value × List Nat) := do
  let (len, rest) ← decode_length det ib input
  if len = -1 then
    if det.realize_il then .error (.simple .deterministicError)
    else do
      let (bs, rest2) ← text_string_parts det rest
      pure (.text bs, rest2)
  else do
    let (bs, rest2) ← readN len.toNat rest
    let v ← decode_text bs
    pure (v, rest2)

/-- `CBORDecoder.decode_simple` (decoder.py lines 292-312).  The 2/4/8-byte
float payload is kept as raw bytes (IEEE numeric semantics, and hence the
`FLOAT` deterministic check, are outside the embedding; no claim touches
them). -/
def decode_simple (ib : Nat) (input : List Nat) :
    Except DecodeError (Value × List Nat) :=
  if ib % 32 < 20 then .ok (.simple (ib % 32), input)
  else if ib % 32 = 20 then .ok (.bool false, input)
  else if ib % 32 = 21 then .ok (.bool true, input)
  else if ib % 32 = 22 then .ok (.null, input)
  else if ib % 32 = 23 then .ok (.undefined, input)
  else if ib % 32 = 24 then
    match input with
    | [] => .error (.simple .unexpectedEOF)
    | b :: rest =>
      if b < 32 then .error (.simple .badSimple) else .ok (.simple b, rest)
  else if ib % 32 < 28 then
    if 2 ^ (ib % 32 - 24) ≤ input.length then
      .ok (.float (2 ^ (ib % 32 - 24)) (input.take (2 ^ (ib % 32 - 24))),
           input.drop (2 ^ (ib % 32 - 24)))
    else .error (.simple .unexpectedEOF)
  else if ib % 32 = 31 then .error (.simple .misplacedBreak)
  else .error (.simple .badInitialByte)

/-- `typed_array_decoder_hints` (cborx/util.py `_analyze_array_tags(64)`),
as the map from a typed-array tag to `(itemsize, swap_bytes)`.  The table
is machine-dependent; this is its value on the reference platform the
repo's tests pin: little-endian, `array` item sizes B:1 H:2 I:4 L:8 Q:8
f:4 d:8 (so every power-of-two integer width 1-8 has a typecode, and
floats only widths 4 and 8).  Signedness (bit 3) changes only the
typecode's case, not size or swap. -/
def typed_array_decoder_hints (tag : Nat) : Option (Nat × Bool) :=
  if 64 ≤ tag ∧ tag < 80 then
    let t := tag - 64
    let size := 2 ^ (t % 4)
    if (t / 4) % 2 = 1 ∧ size = 1 then none
    else some (size, decide ((t / 4) % 2 = 0) && decide (size > 1))
  else if 80 ≤ tag ∧ tag < 88 then
    let t := tag - 80
    let size := 2 ^ (t % 4 + 1)
    if size = 4 ∨ size = 8 then some (size, decide ((t / 4) % 2 = 0))
    else none
  else none

/-- The body of `CBORDecoder.decode_typed_array` (decoder.py lines
375-383) after the payload has been decoded: a non-byte-string payload is
`TagError`; then `array(typecode, array_bytes)` raises a host
`ValueError` ("bytes length not a multiple of item size") when the payload
length is not a multiple of the item size — this escapes the decoder
uncaught.  On success the array holds the machine-order element groups
(`result.byteswap()` reverses each group for opposite-endian tags). -/
def decode_typed_array (tag : Nat) (payload : Value) : Except DecodeError Value :=
  match payload with
  | .bytes bs =>
    match typed_array_decoder_hints tag with
    | some (size, swap) =>
      if bs.length % size = 0 then
        let groups := (List.range (bs.length / size)).map fun i => (bs.drop (i * size)).take size
        .ok (.typedArray size (if swap then groups.map List.reverse else groups))
      else .error (.simple .valueError)
    | none => .error (.simple .valueError)
  | _ => .error (.simple .tagError)

/-- The body of `CBORDecoder.decode_bignum` (decoder.py lines 331-340)
after the payload has been decoded, at the default
`retain_bignums=False`. -/
def decode_bignum (tag : Nat) (payload : Value) : Except DecodeError Value :=
  match payload with
  | .bytes bs => .ok (.int (if tag = 3 then -1 - (beValue bs : Int) else (beValue bs : Int)))
  | _ => .error (.simple .tagError)

/-- The default-table tags (decoder.py lines 83-99) whose decoders
(datetime, decimal/bigfloat, shared refs, rational, regexp, UUID, set, IP,
ordered map) no claim exercises; the embedding marks them explicitly
instead of modelling them. -/
def unmodeled_tags : List Nat := [0, 1, 4, 5, 28, 29, 30, 35, 37, 258, 260, 261, 272]

/-- CPython dict insertion: replace the value of the first `==`-equal key
(keeping that key object and its position), else append.  Faithful only
where `pyEq` is faithful to `==` and the key is hashable — i.e. on
`exact_key` keys; it does not model the host `TypeError` CPython raises
when hashing an unhashable key (a decoded `array.array`). -/
def dict_insert : List (Value × Value) → Value → Value → List (Value × Value)
  | [], k, v => [(k, v)]
  | (k0, v0) :: ps, k, v =>
    if pyEq k0 k then (k0, v) :: ps else (k0, v0) :: dict_insert ps k v

/-- `cls(self._key_value_pairs(...))`: the dict built from the decoded
pairs in order. -/
def build_dict (pairs : List (Value × Value)) : List (Value × Value) :=
  pairs.foldl (fun acc kv => dict_insert acc kv.1 kv.2) []

/-- The duplicate-collection comprehension of `CBORDecoder.decode_dict`
(decoder.py lines 272-273): `seen = set(); [key for key in keys if key in
seen or seen.add(key)]` — every key with an `==`-equal earlier occurrence,
in order, once per extra occurrence. -/
def dup_keys_from (seen : List Value) : List Value → List Value
  | [] => []
  | k :: ks =>
    if seen.any (fun s => pyEq s k) then k :: dup_keys_from seen ks
    else dup_keys_from (k :: seen) ks

def dup_keys (keys : List Value) : List Value := dup_keys_from [] keys

/-- The duplicate-key check of `CBORDecoder.decode_dict` (decoder.py lines
269-277): build the dict; if any key was collapsed (`len(value) !=
len(keys)`), raise `DuplicateKeyError` naming all the duplicated keys. -/
def dict_from_pairs (pairs : List (Value × Value)) :
    Except DecodeError (List (Value × Value)) :=
  if (build_dict pairs).length ≠ pairs.length then
    .error (.duplicateKey (dup_keys (pairs.map Prod.fst)))
  else .ok (build_dict pairs)

/-! ### The recursive decoder

As in the encoder, fuel bounds the recursion depth and standing in for
CPython's call stack; exhaustion is `outOfFuel`, an error outside both
CBOR error families that no theorem's input reaches. -/

mutual

/-- `CBORDecoder.decode_item` (decoder.py lines 460-463) with
`initial_byte=None`: read one byte and dispatch on its major type. -/
def decode_item (det : DeterministicFlags) : Nat → List Nat →
    Except DecodeError (Value × List Nat)
  | 0, _ => .error (.simple .outOfFuel)
  | fuel + 1, input => do
    let (ib, rest) ← read1 input
    decode_item_ib det fuel ib rest
termination_by structural a0 a1 => a0

/-- `CBORDecoder.decode_item` with an explicit initial byte:
`self._major_decoders[initial_byte >> 5](initial_byte)`. -/
def decode_item_ib (det : DeterministicFlags) : Nat → Nat → List Nat →
    Except DecodeError (Value × List Nat)
  | 0, _, _ => .error (.simple .outOfFuel)
  | _fuel + 1, ib, input =>
    match ib / 32 with
    | 0 => do
      let (v, rest) ← decode_length det ib input
      pure (.int v, rest)
    | 1 => do
      let (v, rest) ← decode_length det ib input
      pure (.int (-1 - v), rest)
    | 2 => decode_byte_string det ib input
    | 3 => decode_text_string det ib input
    | 4 => decode_list det _fuel ib input
    | 5 => decode_dict det _fuel ib input
    | 6 => decode_tag det _fuel ib input
    | _ => decode_simple ib input
termination_by structural a0 a1 a2 => a0

/-- `CBORDecoder.decode_list` (decoder.py lines 233-241), at the default
mutable/unshared flags (`cls` is `list`). -/
def decode_list (det : DeterministicFlags) : Nat → Nat → List Nat →
    Except DecodeError (Value × List Nat)
  | 0, _, _ => .error (.simple .outOfFuel)
  | fuel + 1, ib, input => do
    let (len, rest) ← decode_length det ib input
    if len = -1 then
      if det.realize_il then .error (.simple .deterministicError)
      else do
        let (xs, rest2) ← list_parts det fuel rest
        pure (.list xs, rest2)
    else do
      let (xs, rest2) ← decode_n_items det fuel len.toNat rest
      pure (.list xs, rest2)
termination_by structural a0 a1 a2 => a0

/-- `CBORDecoder._list_parts` (decoder.py lines 224-231). -/
def list_parts (det : DeterministicFlags) : Nat → List Nat →
    Except DecodeError (List Value × List Nat)
  | 0, _ => .error (.simple .outOfFuel)
  | fuel + 1, input => do
    let (b, rest) ← read1 input
    if b = 0xff then pure ([], rest)
    else do
      let (v, rest2) ← decode_item_ib det fuel b rest
      let (vs, rest3) ← list_parts det fuel rest2
      pure (v :: vs, rest3)
termination_by structural a0 a1 => a0

/-- `cls(decode_item() for _ in range(length))`. -/
def decode_n_items (det : DeterministicFlags) : Nat → Nat → List Nat →
    Except DecodeError (List Value × List Nat)
  | 0, _, _ => .error (.simple .outOfFuel)
  | _ + 1, 0, input => pure ([], input)
  | fuel + 1, n + 1, input => do
    let (v, rest) ← decode_item det fuel input
    let (vs, rest2) ← decode_n_items det fuel n rest
    pure (v :: vs, rest2)
termination_by structural a0 a1 a2 => a0

/-- `CBORDecoder._key_value_pairs` (decoder.py lines 243-255): `while
length:` — a definite length counts down to 0, an indefinite one (`-1`)
loops until a Break byte; each iteration decodes a key (under the
immutable sub-mode, which only selects container flavours) and a value. -/
def key_value_pairs (det : DeterministicFlags) : Nat → Int → List Nat →
    Except DecodeError (List (Value × Value) × List Nat)
  | 0, _, _ => .error (.simple .outOfFuel)
  | fuel + 1, remaining, input =>
    if remaining = 0 then pure ([], input)
    else do
      let (b, rest) ← read1 input
      if b = 0xff ∧ remaining < 0 then pure ([], rest)
      else do
        let (k, rest2) ← decode_item_ib det fuel b rest
        let (v, rest3) ← decode_item det fuel rest2
        let (ps, rest4) ← key_value_pairs det fuel (remaining - 1) rest3
        pure ((k, v) :: ps, rest4)
termination_by structural a0 a1 a2 => a0

/-- `CBORDecoder.decode_dict` (decoder.py lines 257-277), at the default
flags (`cls` is `dict`). -/
def decode_dict (det : DeterministicFlags) : Nat → Nat → List Nat →
    Except DecodeError (Value × List Nat)
  | 0, _, _ => .error (.simple .outOfFuel)
  | fuel + 1, ib, input => do
    let (len, rest) ← decode_length det ib input
    if len = -1 ∧ det.realize_il then .error (.simple .deterministicError)
    else do
      let (pairs, rest2) ← key_value_pairs det fuel len rest
      let built ← dict_from_pairs pairs
      pure (.map built, rest2)
termination_by structural a0 a1 a2 => a0

/-- `CBORDecoder.decode_tag` (decoder.py lines 279-290) with the default
tag table: tags 2/3 are bignums, the typed-array tags dispatch to
`decode_typed_array`, the remaining default-table tags are explicitly
unmodeled, and unknown tags wrap the payload in `CBORTag`. -/
def decode_tag (det : DeterministicFlags) : Nat → Nat → List Nat →
    Except DecodeError (Value × List Nat)
  | 0, _, _ => .error (.simple .outOfFuel)
  | fuel + 1, ib, input => do
    let (tv, rest) ← decode_length det ib input
    let t := tv.toNat
    if t = 2 ∨ t = 3 then do
      let (payload, rest2) ← decode_item det fuel rest
      let v ← decode_bignum t payload
      pure (v, rest2)
    else if (typed_array_decoder_hints t).isSome then do
      let (payload, rest2) ← decode_item det fuel rest
      let v ← decode_typed_array t payload
      pure (v, rest2)
    else if t ∈ unmodeled_tags then .error (.simple .unmodeled)
    else do
      let (payload, rest2) ← decode_item det fuel rest
      pure (.tag t payload, rest2)
termination_by structural a0 a1 a2 => a0

end

/-- The fuel a top-level decode runs with: every fuel decrement either
consumes an input byte or is one of the at most eight dispatch steps
between two consumptions, so `8 * n + 64` exceeds the recursion depth of
every parse of an `n`-byte input. -/
def decodeFuel (raw : List Nat) : Nat := 8 * raw.length + 64

/-- `CBORDecoder.decode` (decoder.py lines 465-470): one item, then the
`check_eof` read. -/
def decode (det : DeterministicFlags) (raw : List Nat) : Except DecodeError Value := do
  let (v, rest) ← decode_item det (decodeFuel raw) raw
  if rest.isEmpty then pure v else .error (.simple .unconsumedData)

end CBORDecoder

/-- `loads` (decoder.py lines 483-489) with default arguments. -/
def loads (raw : List Nat) : Except DecodeError Value :=
  CBORDecoder.decode CBORDecoder.noFlags raw

/-- `loads` with a `deterministic=...` argument. -/
def loadsD (det : CBORDecoder.DeterministicFlags) (raw : List Nat) : Except DecodeError Value :=
  CBORDecoder.decode det raw

/-! ## Vocabulary for the claims -/

/-- The argument widths a CBOR header can use: inline (0 extra bytes) or
1, 2, 4, 8 extra bytes. -/
def argWidths : List Nat := [0, 1, 2, 4, 8]

/-- Width `w` represents the value `L` exactly: the inline form carries
0-23, a `w`-byte argument carries values below `256^w`. -/
def representable (w L : Nat) : Prop :=
  if w = 0 then L < 24 else L < 256 ^ w

instance (w L : Nat) : Decidable (representable w L) := by
  unfold representable; infer_instance

/-- Each chunk of an indefinite-length byte string encoded as a
definite-length byte string (header plus raw bytes), via the encoder's
`byte_string_parts`. -/
def encode_chunks : List (List Nat) → Except PyError (List (List Nat))
  | [] => .ok []
  | c :: cs => do pure ((← byte_string_parts c) :: (← encode_chunks cs))

/-- Keys pairwise distinct under Python `==` — the condition under which
`decode_dict` accepts a map. -/
def pyDistinct (ks : List Value) : Prop :=
  ks.Pairwise (fun a b => pyEq a b = false)

end CborX

namespace CborX

/-! # Theorems

First the shared lemmas about the byte-level codec, then one theorem per
claim (with its witness or counterexample where required). -/

theorem beBytes_length (w n : Nat) : (beBytes w n).length = w := by
  induction w generalizing n with
  | zero => rfl
  | succ w ih => simp [beBytes, ih]

theorem beValue_append (xs : List Nat) (b : Nat) :
    beValue (xs ++ [b]) = beValue xs * 256 + b := by
  simp [beValue, List.foldl_append]

theorem beValue_beBytes (w n : Nat) (h : n < 256 ^ w) :
    beValue (beBytes w n) = n := by
  induction w generalizing n with
  | zero =>
    interval_cases n
    rfl
  | succ w ih =>
    have hdiv : n / 256 < 256 ^ w := by
      rw [Nat.div_lt_iff_lt_mul (by norm_num)]
      calc n < 256 ^ (w + 1) := h
        _ = 256 ^ w * 256 := by ring
    rw [beBytes, beValue_append, ih _ hdiv]
    omega

/-- Decoding a `(24+k)`-kind header whose argument bytes carry `L`: the
width's bytes are read back as `L`; with the `LENGTH` flag set, an
argument below the width's minimum is rejected as non-minimal, otherwise
it is returned. -/
theorem decode_length_wide (det : CBORDecoder.DeterministicFlags)
    (k L ib : Nat) (rest : List Nat) (hk : k < 4) (hib : ib % 32 = 24 + k)
    (hrep : L < 256 ^ 2 ^ k) :
    CBORDecoder.decode_length det ib (beBytes (2 ^ k) L ++ rest) =
      if det.length = true ∧ L < CBORDecoder.uint_minima k then
        .error (.simple .deterministicError)
      else .ok ((L : Int), rest) := by
  unfold CBORDecoder.decode_length
  rw [if_neg (by omega), if_pos (by omega : ib % 32 < 28)]
  have hw : 2 ^ (ib % 32 - 24) = 2 ^ k := by rw [hib]; congr 1; omega
  rw [hw]
  have hlen : (beBytes (2 ^ k) L).length = 2 ^ k := beBytes_length _ _
  have htake : (beBytes (2 ^ k) L ++ rest).take (2 ^ k) = beBytes (2 ^ k) L :=
    List.take_left' hlen
  have hdrop : (beBytes (2 ^ k) L ++ rest).drop (2 ^ k) = rest :=
    List.drop_left' hlen
  rw [if_pos (by simp [hlen])]
  rw [htake, hdrop, beValue_beBytes _ _ hrep]
  have hmin : CBORDecoder.uint_minima (ib % 32 - 24) = CBORDecoder.uint_minima k := by
    rw [hib]; congr 1; omega
  rw [hmin]

/-- Decoding the header `length_parts` produced returns the encoded value
and leaves the trailing bytes untouched — under any deterministic flags,
since the encoding is minimal.  The produced initial byte is
`major + minor` with `minor < 28`. -/
theorem decode_length_of_length_parts (det : CBORDecoder.DeterministicFlags)
    (L major : Nat) (out rest : List Nat)
    (hmaj : major % 32 = 0) (h : length_parts L major = .ok out) :
    ∃ b tail, out = b :: tail ∧ major ≤ b ∧ b < major + 28 ∧
      CBORDecoder.decode_length det b (tail ++ rest) = .ok ((L : Int), rest) := by
  unfold length_parts at h
  split_ifs at h with h1 h2 h3 h4 h5 <;> cases h
  · -- inline
    refine ⟨major + L, [], rfl, by omega, by omega, ?_⟩
    unfold CBORDecoder.decode_length
    rw [if_pos (by omega : (major + L) % 32 < 24)]
    simp only [List.nil_append]
    have : ((major + L) % 32 : Nat) = L := by omega
    rw [this]
  · -- 1 extra byte
    refine ⟨major + 24, [L], rfl, by omega, by omega, ?_⟩
    have hbe : [L] = beBytes (2 ^ 0) L := by simp [beBytes]; omega
    rw [hbe, decode_length_wide det 0 L _ rest (by omega) (by omega) (by simpa using h2)]
    rw [if_neg]
    simp only [CBORDecoder.uint_minima]
    omega
  · -- 2 extra bytes
    refine ⟨major + 25, beBytes 2 L, rfl, by omega, by omega, ?_⟩
    rw [show (2 : Nat) = 2 ^ 1 by norm_num,
      decode_length_wide det 1 L _ rest (by omega) (by omega) (by norm_num; omega)]
    rw [if_neg]
    simp only [CBORDecoder.uint_minima]
    omega
  · -- 4 extra bytes
    refine ⟨major + 26, beBytes 4 L, rfl, by omega, by omega, ?_⟩
    rw [show (4 : Nat) = 2 ^ 2 by norm_num,
      decode_length_wide det 2 L _ rest (by omega) (by omega) (by norm_num; omega)]
    rw [if_neg]
    simp only [CBORDecoder.uint_minima]
    omega
  · -- 8 extra bytes
    refine ⟨major + 27, beBytes 8 L, rfl, by omega, by omega, ?_⟩
    rw [show (8 : Nat) = 2 ^ 3 by norm_num,
      decode_length_wide det 3 L _ rest (by omega) (by omega) (by norm_num; omega)]
    rw [if_neg]
    simp only [CBORDecoder.uint_minima]
    omega

/-- Claim C2: for every `L < 2^64` (and any shifted major type),
`length_parts` succeeds and emits a header whose argument width is one of
{inline, 1, 2, 4, 8}, represents `L` exactly (decoding the header returns
`L`, under any deterministic flags), and is the shortest representable
width; `L ≥ 2^64` raises `OverflowError`.  Conversely, with the
minimal-length deterministic check active, any header of kind `24+k`
whose argument would have fit in a smaller width (is below the width's
minimum) signals `DeterministicError`, an `Invalid`-family error. -/
theorem C2_header_minimality :
    (∀ L major : Nat, major % 32 = 0 → L < 2 ^ 64 →
      ∃ out, length_parts L major = .ok out ∧
        out.length - 1 ∈ argWidths ∧
        representable (out.length - 1) L ∧
        (∀ w ∈ argWidths, representable w L → out.length - 1 ≤ w) ∧
        (∀ det rest, ∃ b tail, out = b :: tail ∧
          CBORDecoder.decode_length det b (tail ++ rest) = .ok ((L : Int), rest))) ∧
    (∀ L major : Nat, 2 ^ 64 ≤ L → length_parts L major = .error .overflowError) ∧
    (∀ k ib L : Nat, ∀ rest : List Nat, k < 4 → ib % 32 = 24 + k →
      L < CBORDecoder.uint_minima k →
      CBORDecoder.decode_length ⟨true, false⟩ ib (beBytes (2 ^ k) L ++ rest) =
        .error (.simple .deterministicError)) ∧
    (DecodeError.simple .deterministicError).isInvalid = true := by
  refine ⟨?_, ?_, ?_, rfl⟩
  · intro L major hmaj hL
    have hdec : ∀ out, length_parts L major = .ok out →
        (∀ det rest, ∃ b tail, out = b :: tail ∧
          CBORDecoder.decode_length det b (tail ++ rest) = .ok ((L : Int), rest)) := by
      intro out hout det rest
      obtain ⟨b, tail, he, _, _, hd⟩ :=
        decode_length_of_length_parts det L major out rest hmaj hout
      exact ⟨b, tail, he, hd⟩
    by_cases h1 : L < 24
    · have hout : length_parts L major = .ok [major + L] := by
        unfold length_parts; rw [if_pos h1]
      refine ⟨[major + L], hout, ?_, ?_, ?_, hdec _ hout⟩
      · simp [argWidths]
      · simpa [representable] using h1
      · intro w _ _
        simp only [List.length_cons, List.length_nil]
        omega
    · by_cases h2 : L < 256
      · have hout : length_parts L major = .ok [major + 24, L] := by
          unfold length_parts; rw [if_neg h1, if_pos h2]
        refine ⟨[major + 24, L], hout, ?_, ?_, ?_, hdec _ hout⟩
        · simp [argWidths]
        · simpa [representable] using h2
        · intro w hw hrep
          have hw' : w = 0 ∨ w = 1 ∨ w = 2 ∨ w = 4 ∨ w = 8 := by
            simpa [argWidths] using hw
          simp only [List.length_cons, List.length_nil]
          rcases hw' with rfl | rfl | rfl | rfl | rfl <;>
            simp [representable] at hrep ⊢ <;> omega
      · by_cases h3 : L < 65536
        · have hout : length_parts L major = .ok ([major + 25] ++ beBytes 2 L) := by
            unfold length_parts; rw [if_neg h1, if_neg h2, if_pos h3]
          refine ⟨[major + 25] ++ beBytes 2 L, hout, ?_, ?_, ?_, hdec _ hout⟩
          · simp [argWidths, beBytes_length]
          · have : ([major + 25] ++ beBytes 2 L).length - 1 = 2 := by
              simp [beBytes_length]
            rw [this]
            simpa [representable] using h3
          · intro w hw hrep
            have hw' : w = 0 ∨ w = 1 ∨ w = 2 ∨ w = 4 ∨ w = 8 := by
              simpa [argWidths] using hw
            simp only [List.length_append, List.length_cons, List.length_nil, beBytes_length]
            rcases hw' with rfl | rfl | rfl | rfl | rfl <;>
              simp [representable] at hrep ⊢ <;> omega
        · by_cases h4 : L < 4294967296
          · have hout : length_parts L major = .ok ([major + 26] ++ beBytes 4 L) := by
              unfold length_parts; rw [if_neg h1, if_neg h2, if_neg h3, if_pos h4]
            refine ⟨[major + 26] ++ beBytes 4 L, hout, ?_, ?_, ?_, hdec _ hout⟩
            · simp [argWidths, beBytes_length]
            · have : ([major + 26] ++ beBytes 4 L).length - 1 = 4 := by
                simp [beBytes_length]
              rw [this]
              simp only [representable]
              norm_num
              omega
            · intro w hw hrep
              have hw' : w = 0 ∨ w = 1 ∨ w = 2 ∨ w = 4 ∨ w = 8 := by
                simpa [argWidths] using hw
              simp only [List.length_append, List.length_cons, List.length_nil, beBytes_length]
              rcases hw' with rfl | rfl | rfl | rfl | rfl <;>
                simp [representable] at hrep ⊢ <;> omega
          · have h5 : L < 18446744073709551616 := hL
            have hout : length_parts L major = .ok ([major + 27] ++ beBytes 8 L) := by
              unfold length_parts
              rw [if_neg h1, if_neg h2, if_neg h3, if_neg h4, if_pos h5]
            refine ⟨[major + 27] ++ beBytes 8 L, hout, ?_, ?_, ?_, hdec _ hout⟩
            · simp [argWidths, beBytes_length]
            · have : ([major + 27] ++ beBytes 8 L).length - 1 = 8 := by
                simp [beBytes_length]
              rw [this]
              simp only [representable]
              norm_num
              omega
            · intro w hw hrep
              have hw' : w = 0 ∨ w = 1 ∨ w = 2 ∨ w = 4 ∨ w = 8 := by
                simpa [argWidths] using hw
              simp only [List.length_append, List.length_cons, List.length_nil, beBytes_length]
              rcases hw' with rfl | rfl | rfl | rfl | rfl <;>
                simp [representable] at hrep ⊢ <;> omega
  · intro L major hL
    unfold length_parts
    rw [if_neg (by omega), if_neg (by omega), if_neg (by omega), if_neg (by omega),
      if_neg (by omega)]
  · intro k ib L rest hk hib hmin
    have hrep : L < 256 ^ 2 ^ k := by
      have : CBORDecoder.uint_minima k ≤ 256 ^ 2 ^ k := by
        interval_cases k <;> norm_num [CBORDecoder.uint_minima]
      omega
    rw [decode_length_wide ⟨true, false⟩ k L ib rest hk hib hrep, if_pos ⟨rfl, hmin⟩]

/-- Witness for C2 at concrete inputs: `L = 300` with major `0x40` (byte
string), the overflowing `L = 2^64`, and the artificially widened
encoding of 23 as a 2-byte argument. -/
theorem C2_header_minimality_witness :
    (∃ out, length_parts 300 0x40 = .ok out ∧
        out.length - 1 ∈ argWidths ∧
        representable (out.length - 1) 300 ∧
        (∀ w ∈ argWidths, representable w 300 → out.length - 1 ≤ w) ∧
        (∀ det rest, ∃ b tail, out = b :: tail ∧
          CBORDecoder.decode_length det b (tail ++ rest) = .ok ((300 : Int), rest))) ∧
    length_parts (2 ^ 64) 0 = .error .overflowError ∧
    CBORDecoder.decode_length ⟨true, false⟩ 0x59 (beBytes (2 ^ 1) 23 ++ []) =
      .error (.simple .deterministicError) :=
  ⟨C2_header_minimality.1 300 0x40 (by decide) (by decide),
   C2_header_minimality.2.1 (2 ^ 64) 0 (by decide),
   C2_header_minimality.2.2.1 1 0x59 23 [] (by decide) (by decide) (by decide)⟩

/-- Claim C4: decoding an indefinite-length byte string reads
definite-length byte-string chunks until a Break (`0xff`) and returns
their concatenation — stated generally for any sequence of encoder-encoded
chunks; the spec's example (chunks `"the "`, `"quick "`, `"brown "`, `""`,
`"fox jumped"`) decodes to `"the quick brown fox jumped"`; and any inner
item whose initial byte is not a definite-length byte-string header
(another major type, a reserved minor, or a nested indefinite-length
marker) signals `BadInitialByteError`. -/
theorem C4_indefinite_byte_strings :
    (∀ (chunks encs : List (List Nat)) (rest : List Nat),
      encode_chunks chunks = .ok encs →
      CBORDecoder.byte_string_parts CBORDecoder.noFlags (encs.flatten ++ 0xff :: rest) =
        .ok (chunks.flatten, rest)) ∧
    loads ([0x5f, 0x44, 116, 104, 101, 32, 0x46, 113, 117, 105, 99, 107, 32,
        0x46, 98, 114, 111, 119, 110, 32, 0x40,
        0x4a, 102, 111, 120, 32, 106, 117, 109, 112, 101, 100, 0xff]) =
      .ok (.bytes [116, 104, 101, 32, 113, 117, 105, 99, 107, 32, 98, 114, 111,
        119, 110, 32, 102, 111, 120, 32, 106, 117, 109, 112, 101, 100]) ∧
    (∀ (b : Nat) (rest : List Nat), ¬ (0x40 ≤ b ∧ b < 0x5c) → b ≠ 0xff →
      CBORDecoder.byte_string_parts CBORDecoder.noFlags (b :: rest) =
        .error (.simple .badInitialByte)) := by
  refine ⟨?_, ?_, ?_⟩
  · intro chunks
    induction chunks with
    | nil =>
      intro encs rest h
      simp only [encode_chunks, Except.ok.injEq] at h
      subst h
      simp only [List.flatten_nil, List.nil_append]
      rw [CBORDecoder.byte_string_parts]
      rw [if_neg (by omega), if_pos rfl]
    | cons c cs ih =>
      intro encs rest h
      rw [encode_chunks] at h
      rcases he : byte_string_parts c with e | e <;> rw [he] at h
      · simp only [Bind.bind, Except.bind] at h
        cases h
      rcases hes : encode_chunks cs with es | es <;> rw [hes] at h
      · simp only [Bind.bind, Except.bind] at h
        cases h
      simp only [Bind.bind, Except.bind, Pure.pure, Except.pure, Except.ok.injEq] at h
      subst h
      -- the encoded chunk is a header followed by the raw bytes
      unfold byte_string_parts at he
      rcases hhdr : length_parts c.length 0x40 with e' | hdr <;> rw [hhdr] at he
      · simp only [Bind.bind, Except.bind] at he
        cases he
      simp only [Bind.bind, Except.bind, Pure.pure, Except.pure, Except.ok.injEq] at he
      subst he
      obtain ⟨b, tail, hcons, hble, hblt, hdec⟩ :=
        decode_length_of_length_parts CBORDecoder.noFlags c.length 0x40 hdr
          (c ++ (es.flatten ++ 0xff :: rest)) (by decide) hhdr
      subst hcons
      have hinput : ((b :: tail ++ c) :: es).flatten ++ 0xff :: rest =
          b :: (tail ++ (c ++ (es.flatten ++ 0xff :: rest))) := by
        simp [List.flatten_cons, List.append_assoc]
      rw [hinput, CBORDecoder.byte_string_parts]
      rw [if_pos (by omega : 0x40 ≤ b ∧ b < 0x5c)]
      split
      · next e heq => rw [hdec] at heq; cases heq
      · next len rest2 heq =>
        rw [hdec] at heq
        cases heq
        have htake : CBORDecoder.readN (Int.toNat c.length)
            (c ++ (es.flatten ++ 0xff :: rest)) =
            .ok (c, es.flatten ++ 0xff :: rest) := by
          unfold CBORDecoder.readN
          rw [if_pos (by simp)]
          rw [Int.toNat_natCast, List.take_left' rfl, List.drop_left' rfl]
        split
        · next e heq2 => rw [htake] at heq2; cases heq2
        · next chunk rest3 heq2 =>
          rw [htake] at heq2
          cases heq2
          rw [ih es rest hes]
          simp [List.flatten_cons, List.append_assoc]
  · simp +decide [loads, CBORDecoder.decode, CBORDecoder.decodeFuel, CBORDecoder.decode_item,
      CBORDecoder.decode_item_ib, CBORDecoder.decode_byte_string, CBORDecoder.decode_length,
      CBORDecoder.read1, CBORDecoder.readN, CBORDecoder.byte_string_parts, beValue,
      CBORDecoder.noFlags, Bind.bind, Except.bind, Pure.pure, Except.pure]
  · intro b rest hnot hne
    rw [CBORDecoder.byte_string_parts]
    rw [if_neg hnot, if_neg hne]

/-- Witness for C4: two concrete chunks reassemble, and a misplaced
unsigned-integer initial byte (0x20) inside the indefinite-length string
is rejected. -/
theorem C4_indefinite_byte_strings_witness :
    CBORDecoder.byte_string_parts CBORDecoder.noFlags
        ([[0x41, 1], [0x42, 2, 3]].flatten ++ 0xff :: [9]) =
      .ok ([[1], [2, 3]].flatten, [9]) ∧
    CBORDecoder.byte_string_parts CBORDecoder.noFlags (0x20 :: [0]) =
      .error (.simple .badInitialByte) :=
  ⟨C4_indefinite_byte_strings.1 [[1], [2, 3]] [[0x41, 1], [0x42, 2, 3]] [9] (by rfl),
   C4_indefinite_byte_strings.2.2 0x20 [0] (by decide) (by decide)⟩

/-- Claim C5 counterexample: the claim says an initial byte with minor 31
and major type 0 — the byte `0x1f` — signals `IllFormed(MisplacedBreak)`;
decoding `[0x1f]` in fact signals `BadInitialByteError`, a different
exception class (the repo's own `test_decoder.py` lists `1c`-`1f`,
`3c`-`3f` and `dc`-`df` under `bad_initial_bytes`, not under
`misplaced_breaks`). -/
theorem C5_counterexample :
    loads [0x1f] = .error (.simple .badInitialByte) ∧
    DecodeErrorKind.badInitialByte ≠ DecodeErrorKind.misplacedBreak :=
  ⟨rfl, by decide⟩

/-- Claim C5 as amended: of the initial bytes with minor 31 whose major
type is not 2-5, only the major-7 byte `0xff` signals
`MisplacedBreakError`; majors 0, 1 and 6 (`0x1f`, `0x3f`, `0xdf`) signal
`BadInitialByteError`.  Both are `IllFormed`-family errors. -/
theorem C5_break_minor_amended :
    loads [0x1f] = .error (.simple .badInitialByte) ∧
    loads [0x3f] = .error (.simple .badInitialByte) ∧
    loads [0xdf] = .error (.simple .badInitialByte) ∧
    loads [0xff] = .error (.simple .misplacedBreak) ∧
    (DecodeError.simple .badInitialByte).isIllFormed = true ∧
    (DecodeError.simple .misplacedBreak).isIllFormed = true :=
  ⟨rfl, rfl, rfl, rfl, rfl, rfl⟩

/-- Claim C7 counterexample: the claim says a typed-array payload whose
length is not a multiple of the element width signals an error in the
decoder's `Invalid` family; decoding tag 65 (uint16 big-endian) with a
1-byte payload instead lets the host `ValueError` raised by
`array(typecode, array_bytes)` escape, which belongs to neither CBOR
error family. -/
theorem C7_counterexample :
    loads [0xd8, 0x41, 0x41, 0x00] = .error (.simple .valueError) ∧
    (DecodeError.simple .valueError).isInvalid = false :=
  ⟨rfl, rfl⟩

/-- Claim C7 as amended: for every typed-array tag in the decoder-hints
table, a byte-string payload whose length is not a multiple of the
element width raises the host `ValueError` (outside both the `Invalid`
and `IllFormed` families); only a payload that is not a byte string at
all signals `Invalid` (via `TagError`). -/
theorem C7_typed_array_mismatch_amended :
    (∀ (t size : Nat) (swap : Bool) (bs : List Nat),
      CBORDecoder.typed_array_decoder_hints t = some (size, swap) →
      bs.length % size ≠ 0 →
      CBORDecoder.decode_typed_array t (.bytes bs) = .error (.simple .valueError)) ∧
    (∀ (t : Nat) (n : Int),
      CBORDecoder.decode_typed_array t (.int n) = .error (.simple .tagError)) ∧
    (DecodeError.simple .valueError).isInvalid = false ∧
    (DecodeError.simple .valueError).isIllFormed = false ∧
    (DecodeError.simple .tagError).isInvalid = true := by
  refine ⟨?_, fun t n => rfl, rfl, rfl, rfl⟩
  intro t size swap bs hh hmod
  unfold CBORDecoder.decode_typed_array
  rw [hh]
  simp only [if_neg hmod]

/-- Witness for C7's amended theorem: tag 65 is a 2-byte-element array
and a 1-byte payload is rejected with `ValueError`. -/
theorem C7_typed_array_mismatch_witness :
    CBORDecoder.typed_array_decoder_hints 65 = some (2, true) ∧
    CBORDecoder.decode_typed_array 65 (.bytes [0]) = .error (.simple .valueError) :=
  ⟨by decide, C7_typed_array_mismatch_amended.1 65 2 true [0] (by decide) (by decide)⟩

/-! ### Duplicate-key machinery (C3) -/

theorem exists_key_iff_mem_map (d : List (Value × Value)) (x : Value) :
    (∃ p ∈ d, pyEq p.1 x = true) ↔ (∃ key ∈ d.map Prod.fst, pyEq key x = true) := by
  constructor
  · rintro ⟨p, hp, he⟩
    exact ⟨p.1, List.mem_map_of_mem _ hp, he⟩
  · rintro ⟨key, hk, he⟩
    obtain ⟨p, hp, rfl⟩ := List.mem_map.1 hk
    exact ⟨p, hp, he⟩

/-- Inserting a key that `==`-matches an existing one leaves the dict's
key list unchanged (CPython updates the value in place). -/
theorem dict_insert_keys_of_mem (d : List (Value × Value)) (k v : Value)
    (h : ∃ p ∈ d, pyEq p.1 k = true) :
    (CBORDecoder.dict_insert d k v).map Prod.fst = d.map Prod.fst := by
  induction d with
  | nil => simp at h
  | cons p ps ih =>
    rw [CBORDecoder.dict_insert]
    by_cases hpk : pyEq p.1 k = true
    · rw [if_pos hpk]
      simp
    · rw [if_neg hpk]
      obtain ⟨q, hq, he⟩ := h
      rcases List.mem_cons.1 hq with rfl | hq'
      · exact absurd he hpk
      · simp only [List.map_cons, List.cons.injEq, true_and]
        exact ih ⟨q, hq', he⟩

/-- Inserting a key that matches nothing appends the pair. -/
theorem dict_insert_of_forall (d : List (Value × Value)) (k v : Value)
    (h : ∀ p ∈ d, pyEq p.1 k = false) :
    CBORDecoder.dict_insert d k v = d ++ [(k, v)] := by
  induction d with
  | nil => rfl
  | cons p ps ih =>
    rw [CBORDecoder.dict_insert]
    have hp := h p (List.mem_cons_self _ _)
    rw [if_neg (by simp [hp])]
    simp only [List.cons_append, List.cons.injEq, true_and]
    exact ih fun q hq => h q (List.mem_cons_of_mem _ hq)

/-- The accounting invariant of `decode_dict`'s duplicate check: the
number of entries the dict build collapses equals the number of keys the
duplicate comprehension collects. -/
theorem build_dict_dup_count :
    ∀ (pairs dict : List (Value × Value)) (seen : List Value),
      (∀ x, (∃ p ∈ dict, pyEq p.1 x = true) ↔ (∃ s ∈ seen, pyEq s x = true)) →
      (pairs.foldl (fun a kv => CBORDecoder.dict_insert a kv.1 kv.2) dict).length +
        (CBORDecoder.dup_keys_from seen (pairs.map Prod.fst)).length
        = dict.length + pairs.length := by
  intro pairs
  induction pairs with
  | nil => intro dict seen _; simp [CBORDecoder.dup_keys_from]
  | cons kv rest ih =>
    intro dict seen hinv
    rw [List.foldl_cons, List.map_cons, CBORDecoder.dup_keys_from]
    by_cases hseen : seen.any (fun s => pyEq s kv.1) = true
    · rw [if_pos hseen]
      have hmatch : ∃ p ∈ dict, pyEq p.1 kv.1 = true := by
        rw [hinv]
        obtain ⟨s, hs, he⟩ := List.any_eq_true.1 hseen
        exact ⟨s, hs, he⟩
      have hkeys := dict_insert_keys_of_mem dict kv.1 kv.2 hmatch
      have hinv' : ∀ x, (∃ p ∈ CBORDecoder.dict_insert dict kv.1 kv.2, pyEq p.1 x = true) ↔
          (∃ s ∈ seen, pyEq s x = true) := by
        intro x
        rw [exists_key_iff_mem_map, hkeys, ← exists_key_iff_mem_map]
        exact hinv x
      have hlen : (CBORDecoder.dict_insert dict kv.1 kv.2).length = dict.length := by
        have := congrArg List.length hkeys
        simpa using this
      have hrec := ih (CBORDecoder.dict_insert dict kv.1 kv.2) seen hinv'
      rw [hlen] at hrec
      simp only [List.length_cons]
      omega
    · rw [if_neg hseen]
      have hnomatch : ∀ p ∈ dict, pyEq p.1 kv.1 = false := by
        intro p hp
        by_contra hne
        have hne' : pyEq p.1 kv.1 = true := by
          cases hpe : pyEq p.1 kv.1 with
          | false => exact absurd hpe hne
          | true => rfl
        have : ∃ s ∈ seen, pyEq s kv.1 = true := (hinv kv.1).1 ⟨p, hp, hne'⟩
        obtain ⟨s, hs, he⟩ := this
        exact hseen (List.any_eq_true.2 ⟨s, hs, he⟩)
      have happ := dict_insert_of_forall dict kv.1 kv.2 hnomatch
      have hinv' : ∀ x, (∃ p ∈ dict ++ [kv], pyEq p.1 x = true) ↔
          (∃ s ∈ kv.1 :: seen, pyEq s x = true) := by
        intro x
        constructor
        · rintro ⟨p, hp, he⟩
          rcases List.mem_append.1 hp with hp' | hp'
          · obtain ⟨s, hs, he'⟩ := (hinv x).1 ⟨p, hp', he⟩
            exact ⟨s, List.mem_cons_of_mem _ hs, he'⟩
          · have heq : p = kv := List.mem_singleton.1 hp'
            rw [heq] at he
            exact ⟨kv.1, List.mem_cons_self _ _, he⟩
        · rintro ⟨s, hs, he⟩
          rcases List.mem_cons.1 hs with rfl | hs'
          · exact ⟨kv, List.mem_append_right _ (List.mem_singleton_self _), he⟩
          · obtain ⟨p, hp, he'⟩ := (hinv x).2 ⟨s, hs', he⟩
            exact ⟨p, List.mem_append_left _ hp, he'⟩
      have := ih (dict ++ [kv]) (kv.1 :: seen) (by
        intro x
        have h1 := hinv' x
        constructor
        · intro hx
          obtain ⟨p, hp, he⟩ := hx
          exact h1.1 ⟨p, by simpa using hp, he⟩
        · intro hx
          obtain ⟨p, hp, he⟩ := h1.2 hx
          exact ⟨p, by simpa using hp, he⟩)
      rw [happ, this]
      simp only [List.length_append, List.length_cons, List.length_nil]
      omega

/-- If the duplicate comprehension collects nothing, the keys are
pairwise distinct under `==` (and none matches the already-seen set). -/
theorem dup_keys_from_nil :
    ∀ (ks : List Value) (seen : List Value),
      CBORDecoder.dup_keys_from seen ks = [] →
      (∀ s ∈ seen, ∀ k ∈ ks, pyEq s k = false) ∧
        ks.Pairwise (fun a b => pyEq a b = false) := by
  intro ks
  induction ks with
  | nil => intro seen _; exact ⟨by simp, List.Pairwise.nil⟩
  | cons k rest ih =>
    intro seen h
    rw [CBORDecoder.dup_keys_from] at h
    by_cases hseen : seen.any (fun s => pyEq s k) = true
    · rw [if_pos hseen] at h
      cases h
    · rw [if_neg hseen] at h
      obtain ⟨h1, h2⟩ := ih (k :: seen) h
      have hnk : ∀ s ∈ seen, pyEq s k = false := by
        intro s hs
        by_contra hne
        have hne' : pyEq s k = true := by
          cases hpe : pyEq s k with
          | false => exact absurd hpe hne
          | true => rfl
        exact hseen (List.any_eq_true.2 ⟨s, hs, hne'⟩)
      refine ⟨?_, ?_⟩
      · intro s hs x hx
        rcases List.mem_cons.1 hx with rfl | hx'
        · exact hnk s hs
        · exact h1 s (List.mem_cons_of_mem _ hs) x hx'
      · exact List.Pairwise.cons (fun b hb => h1 k (List.mem_cons_self _ _) b hb) h2

/-- Building a dict from pairs with pairwise-distinct keys keeps every
pair in order. -/
theorem foldl_insert_of_distinct :
    ∀ (pairs dict : List (Value × Value)),
      (((dict ++ pairs).map Prod.fst).Pairwise (fun a b => pyEq a b = false)) →
      pairs.foldl (fun a kv => CBORDecoder.dict_insert a kv.1 kv.2) dict = dict ++ pairs := by
  intro pairs
  induction pairs with
  | nil => intro dict _; simp
  | cons kv rest ih =>
    intro dict h
    rw [List.foldl_cons]
    have hnomatch : ∀ p ∈ dict, pyEq p.1 kv.1 = false := by
      intro p hp
      have h' := (List.pairwise_append.1 (by simpa using h)).2.2
      exact h' p.1 (List.mem_map_of_mem _ hp) kv.1 (by simp)
    rw [dict_insert_of_forall dict kv.1 kv.2 hnomatch]
    have h2 : (((dict ++ [kv]) ++ rest).map Prod.fst).Pairwise
        (fun a b => pyEq a b = false) := by
      have : dict ++ kv :: rest = (dict ++ [kv]) ++ rest := by simp
      rw [← this]
      exact h
    rw [ih (dict ++ [kv]) h2]
    simp

/-- Claim C3 counterexample: the claim says map keys are compared using
full structural equality (so a map whose keys are structurally distinct
decodes successfully).  `A2 F4 00 00 01` is the map `{false: 0, 0: 1}`
with two structurally distinct keys, yet decoding signals
`DuplicateKeyError` naming `0`, because CPython's `==` makes
`False == 0`. -/
theorem C3_counterexample :
    loads [0xa2, 0xf4, 0, 0, 1] = .error (.duplicateKey [.int 0]) ∧
    Value.bool false ≠ Value.int 0 :=
  ⟨rfl, fun h => Value.noConfusion h⟩

/-- Claim C3 as amended: keys are compared using Python value equality
(`==`, under which `False = 0` and `True = 1`), not full structural
equality.  For maps whose keys all lie in `exact_key` — the hashable key
values on which the embedded `pyEq` coincides with CPython `==` (ints,
bools, byte/text strings, `None`, `Undefined`, simples, and tags/tuples
of such; no maps, floats or typed arrays) — a map with pairwise
`==`-distinct keys decodes to exactly its pairs, any duplicate signals
`Invalid(DuplicateKeyError)` whose message names the collected duplicate
keys — one per extra occurrence, witnessed by the exact accounting
equation and by a decode whose error names two different duplicated
keys — and `A2 01 02 03 04` decodes to `{1: 2, 3: 4}`. -/
theorem C3_duplicate_keys_amended :
    (∀ pairs : List (Value × Value), exact_key_list (pairs.map Prod.fst) = true →
      pyDistinct (pairs.map Prod.fst) →
      CBORDecoder.dict_from_pairs pairs = .ok pairs) ∧
    (∀ pairs : List (Value × Value), exact_key_list (pairs.map Prod.fst) = true →
      ¬ pyDistinct (pairs.map Prod.fst) →
      CBORDecoder.dict_from_pairs pairs =
        .error (.duplicateKey (CBORDecoder.dup_keys (pairs.map Prod.fst)))) ∧
    (∀ pairs : List (Value × Value), exact_key_list (pairs.map Prod.fst) = true →
      (CBORDecoder.build_dict pairs).length +
        (CBORDecoder.dup_keys (pairs.map Prod.fst)).length = pairs.length) ∧
    (∀ dups, (DecodeError.duplicateKey dups).isInvalid = true) ∧
    loads [0xa2, 1, 2, 3, 4] = .ok (.map [(.int 1, .int 2), (.int 3, .int 4)]) ∧
    loads [0xa5, 1, 2, 2, 3, 2, 4, 6, 2, 1, 2] =
      .error (.duplicateKey [.int 2, .int 1]) := by
  have hcount : ∀ pairs : List (Value × Value),
      (CBORDecoder.build_dict pairs).length +
        (CBORDecoder.dup_keys (pairs.map Prod.fst)).length = pairs.length := by
    intro pairs
    have := build_dict_dup_count pairs [] [] (by simp)
    simpa [CBORDecoder.build_dict, CBORDecoder.dup_keys] using this
  refine ⟨?_, ?_, fun pairs _ => hcount pairs, fun _ => rfl, rfl, rfl⟩
  · intro pairs _ hdist
    have hbuild : CBORDecoder.build_dict pairs = pairs :=
      foldl_insert_of_distinct pairs [] (by simpa [pyDistinct] using hdist)
    unfold CBORDecoder.dict_from_pairs
    rw [hbuild, if_neg (by simp)]
  · intro pairs _ hdist
    have hne : CBORDecoder.dup_keys (pairs.map Prod.fst) ≠ [] := by
      intro hnil
      exact hdist ((dup_keys_from_nil (pairs.map Prod.fst) [] hnil).2)
    have hlt : (CBORDecoder.build_dict pairs).length ≠ pairs.length := by
      have := hcount pairs
      have : (CBORDecoder.dup_keys (pairs.map Prod.fst)).length ≠ 0 := by
        intro h0
        exact hne (List.length_eq_zero.1 h0)
      omega
    unfold CBORDecoder.dict_from_pairs
    rw [if_pos hlt]

/-- Witness for C3's amended theorem: a map with distinct keys is
accepted as its pairs, and the `{false: 0, 0: 1}` map is rejected naming
the collected duplicate. -/
theorem C3_duplicate_keys_witness :
    CBORDecoder.dict_from_pairs [(.int 1, .int 2), (.int 3, .int 4)] =
      .ok [(.int 1, .int 2), (.int 3, .int 4)] ∧
    CBORDecoder.dict_from_pairs [(.bool false, .int 0), (.int 0, .int 1)] =
      .error (.duplicateKey
        (CBORDecoder.dup_keys ([(Value.bool false, Value.int 0),
          (Value.int 0, Value.int 1)].map Prod.fst))) :=
  ⟨C3_duplicate_keys_amended.1 [(.int 1, .int 2), (.int 3, .int 4)] rfl (by
      simp [pyDistinct]
      decide),
   C3_duplicate_keys_amended.2.1 [(.bool false, .int 0), (.int 0, .int 1)] rfl (by
      simp [pyDistinct]
      decide)⟩

/-- Claim C1: the round-trip `loads(CBOREncoder().encode(V)) == V` fails.
`default_generators` routes `list`/`tuple` through `sorted_list_parts`,
which sorts the encoded elements lexicographically under the default
`LEXICOGRAPHIC` sort method, so `encode([2, 1])` yields `82 01 02`, which
decodes to `[1, 2] ≠ [2, 1]` — contradicting the spec's round-trip
property and the repo's own `test_encode_list`/`test_round_trip`, which
require element order to be preserved. -/
theorem C1_roundtrip_failure :
    encode default_encoder_options (.list [.int 2, .int 1]) = .ok [0x82, 1, 2] ∧
    loads [0x82, 1, 2] = .ok (.list [.int 1, .int 2]) ∧
    Value.list [.int 1, .int 2] ≠ Value.list [.int 2, .int 1] := by
  refine ⟨rfl, rfl, ?_⟩
  intro h
  injection h with h1
  injection h1 with h2 _
  injection h2 with h3
  exact absurd h3 (by decide)

/-- Claim C6: encoding any non-empty dict with
`sort_method=LENGTH_FIRST` raises a host `TypeError` instead of sorting:
`sorted_pairs` passes `key=lambda k, v: (len(k), k)` to `sorted`, a
two-parameter lambda that `sorted` calls with each pair as a single
argument.  The empty dict (no key call) still encodes. -/
theorem C6_length_first_type_error :
    encode ⟨.length_first, true⟩ (.map [(.int 1, .int 2)]) = .error .typeError ∧
    sorted_pairs [([0x01], .int 2)] .length_first = .error .typeError ∧
    sorted_pairs [] .length_first = .ok [] ∧
    encode ⟨.length_first, true⟩ (.map []) = .ok [0xa0] :=
  ⟨rfl, rfl, rfl, rfl⟩

/-- Claim C8: encoding an `IPv4Network`/`IPv6Network` never returns
bytes: `ip_network_parts` calls `self._sorted_dict_parts(pairs)` without
the required `sort_method` positional argument, so CPython raises
`TypeError` for every such value. -/
theorem C8_ip_network_encode_raises :
    ∀ (addr : List Nat) (plen : Nat),
      encode default_encoder_options (.ipNetwork addr plen) = .error .typeError := by
  intro addr plen
  have h4 : type_of (.ipNetwork addr plen) =
      (if addr.length = 4 then PyType.ipv4net else PyType.ipv6net) := rfl
  have ht : lookup_encoder (.ipNetwork addr plen) = .ok .ip_network_parts := by
    simp only [lookup_encoder]
    rw [h4]
    by_cases h : addr.length = 4
    · rw [if_pos h]; rfl
    · rw [if_neg h]; rfl
  have hstep : encode default_encoder_options (.ipNetwork addr plen) =
      match lookup_encoder (.ipNetwork addr plen) with
      | .error e => .error e
      | .ok g => run_generator default_encoder_options 999 g (.ipNetwork addr plen) := rfl
  rw [hstep, ht]
  rfl

/-- Claim C9: `True` encodes to the single byte `0xF5` and `False` to
`0xF4`; the dispatch finds `bool_parts` by the exact-type lookup, never
the integer encoder — even though `bool` is a subclass of `int` and the
`isinstance` scan (which the exact hit pre-empts) would have chosen
`int_parts` first. -/
theorem C9_bool_encoding :
    encode default_encoder_options (.bool true) = .ok [0xf5] ∧
    encode default_encoder_options (.bool false) = .ok [0xf4] ∧
    lookup_encoder (.bool true) = .ok .bool_parts ∧
    lookup_encoder (.bool false) = .ok .bool_parts ∧
    GenName.bool_parts ≠ GenName.int_parts ∧
    isinstanceOf .bool .int = true ∧
    default_generators.find? (fun e => isinstanceKey (type_of (.bool true)) e.1) =
      some (.single .int, .int_parts) := by
  exact ⟨rfl, rfl, rfl, rfl, by decide, rfl, by decide⟩

/-! ### Sorting machinery (C10) -/

theorem lexLtBytes_trans :
    ∀ a b c : List Nat, lexLtBytes a b = true → lexLtBytes b c = true →
      lexLtBytes a c = true := by
  intro a
  induction a with
  | nil =>
    intro b c h1 h2
    cases b with
    | nil => cases h1
    | cons y ys =>
      cases c with
      | nil => cases h2
      | cons z zs => rfl
  | cons x xs ih =>
    intro b c h1 h2
    cases b with
    | nil => cases h1
    | cons y ys =>
      cases c with
      | nil => cases h2
      | cons z zs =>
        simp only [lexLtBytes, Bool.or_eq_true, Bool.and_eq_true, decide_eq_true_eq,
          beq_iff_eq] at h1 h2 ⊢
        rcases h1 with h1 | ⟨rfl, h1⟩
        · rcases h2 with h2 | ⟨rfl, _⟩
          · exact Or.inl (by omega)
          · exact Or.inl h1
        · rcases h2 with h2 | ⟨rfl, h2⟩
          · exact Or.inl h2
          · exact Or.inr ⟨rfl, ih ys zs h1 h2⟩

theorem lexLtBytes_asymm :
    ∀ a b : List Nat, lexLtBytes a b = true → lexLtBytes b a = false := by
  intro a
  induction a with
  | nil =>
    intro b h
    cases b with
    | nil => cases h
    | cons y ys => rfl
  | cons x xs ih =>
    intro b h
    cases b with
    | nil => cases h
    | cons y ys =>
      simp only [lexLtBytes, Bool.or_eq_true, Bool.and_eq_true, decide_eq_true_eq,
        beq_iff_eq] at h
      simp only [lexLtBytes, Bool.or_eq_false_iff, Bool.and_eq_false_iff,
        decide_eq_false_iff_not, beq_eq_false_iff_ne, ne_eq]
      rcases h with h | ⟨rfl, h⟩
      · exact ⟨by omega, Or.inl (by omega)⟩
      · exact ⟨by omega, Or.inr (ih ys h)⟩

theorem lexLtBytes_total :
    ∀ a b : List Nat, a ≠ b → lexLtBytes a b = true ∨ lexLtBytes b a = true := by
  intro a
  induction a with
  | nil =>
    intro b hne
    cases b with
    | nil => exact absurd rfl hne
    | cons y ys => exact Or.inl rfl
  | cons x xs ih =>
    intro b hne
    cases b with
    | nil => exact Or.inr rfl
    | cons y ys =>
      simp only [lexLtBytes, Bool.or_eq_true, Bool.and_eq_true, decide_eq_true_eq,
        beq_iff_eq]
      by_cases hxy : x = y
      · subst hxy
        have hys : xs ≠ ys := by
          intro h; exact hne (by rw [h])
        rcases ih ys hys with h | h
        · exact Or.inl (Or.inr ⟨rfl, h⟩)
        · exact Or.inr (Or.inr ⟨rfl, h⟩)
      · rcases Nat.lt_or_ge x y with h | h
        · exact Or.inl (Or.inl h)
        · exact Or.inr (Or.inl (by omega))

theorem insertSorted_perm {α : Type} (R : α → α → Bool) (x : α) :
    ∀ l : List α, (insertSorted R x l).Perm (x :: l) := by
  intro l
  induction l with
  | nil => exact List.Perm.refl _
  | cons h t ih =>
    rw [insertSorted]
    by_cases hx : R x h = true
    · rw [if_pos hx]
    · rw [if_neg hx]
      exact (ih.cons h).trans (List.Perm.swap _ _ _)

theorem mem_insertSorted {α : Type} (R : α → α → Bool) (x y : α) (l : List α) :
    y ∈ insertSorted R x l ↔ y = x ∨ y ∈ l := by
  rw [(insertSorted_perm R x l).mem_iff]
  simp

theorem stableSort_perm {α : Type} (R : α → α → Bool) :
    ∀ (xs acc : List α),
      (xs.foldl (fun acc x => insertSorted R x acc) acc).Perm (acc ++ xs) := by
  intro xs
  induction xs with
  | nil => intro acc; simp
  | cons x rest ih =>
    intro acc
    rw [List.foldl_cons]
    refine (ih (insertSorted R x acc)).trans ?_
    refine (((insertSorted_perm R x acc)).append_right rest).trans ?_
    exact List.perm_middle.symm

theorem insertSorted_pairwise {α : Type} (R : α → α → Bool)
    (htrans : ∀ a b c, R a b = true → R b c = true → R a c = true)
    (x : α) : ∀ l : List α, l.Pairwise (fun a b => R a b = true) →
      (∀ y ∈ l, R x y = true ∨ R y x = true) →
      (insertSorted R x l).Pairwise (fun a b => R a b = true) := by
  intro l
  induction l with
  | nil =>
    intro _ _
    rw [show insertSorted R x [] = [x] from rfl]
    simp
  | cons h t ih =>
    intro hl htot
    rw [insertSorted]
    by_cases hx : R x h = true
    · rw [if_pos hx]
      refine List.Pairwise.cons ?_ hl
      intro z hz
      rcases List.mem_cons.1 hz with rfl | hz'
      · exact hx
      · exact htrans x h z hx (List.rel_of_pairwise_cons hl hz')
    · rw [if_neg hx]
      have hhx : R h x = true := by
        rcases htot h (List.mem_cons_self _ _) with h' | h'
        · exact absurd h' hx
        · exact h'
      refine List.Pairwise.cons ?_ ?_
      · intro z hz
        rcases (mem_insertSorted R x z t).1 hz with rfl | hz'
        · exact hhx
        · exact List.rel_of_pairwise_cons hl hz'
      · exact ih (List.pairwise_cons.1 hl).2
          (fun y hy => htot y (List.mem_cons_of_mem _ hy))

theorem stableSort_sorted {α : Type} (R : α → α → Bool)
    (htrans : ∀ a b c, R a b = true → R b c = true → R a c = true) :
    ∀ (xs acc : List α), acc.Pairwise (fun a b => R a b = true) →
      (∀ x ∈ xs, ∀ y ∈ acc, R x y = true ∨ R y x = true) →
      xs.Pairwise (fun a b => R a b = true ∨ R b a = true) →
      (xs.foldl (fun acc x => insertSorted R x acc) acc).Pairwise
        (fun a b => R a b = true) := by
  intro xs
  induction xs with
  | nil => intro acc hacc _ _; simpa using hacc
  | cons x rest ih =>
    intro acc hacc htot hxs
    rw [List.foldl_cons]
    refine ih (insertSorted R x acc) ?_ ?_ (List.pairwise_cons.1 hxs).2
    · exact insertSorted_pairwise R htrans x acc hacc
        (fun y hy => htot x (List.mem_cons_self _ _) y hy)
    · intro z hz y hy
      rcases (mem_insertSorted R x y acc).1 hy with rfl | hy'
      · rcases List.rel_of_pairwise_cons hxs hz with h' | h'
        · exact Or.inr h'
        · exact Or.inl h'
      · exact htot z (List.mem_cons_of_mem _ hz) y hy'

theorem eq_of_perm_of_pairwise_asymm {α : Type} {R : α → α → Prop}
    (hasym : ∀ a b, R a b → ¬ R b a) :
    ∀ l1 l2 : List α, l1.Perm l2 → l1.Pairwise R → l2.Pairwise R → l1 = l2 := by
  intro l1
  induction l1 with
  | nil =>
    intro l2 hperm _ _
    exact (hperm.symm.eq_nil).symm
  | cons a t1 ih =>
    intro l2 hperm h1 h2
    cases l2 with
    | nil => exact absurd hperm.eq_nil (by simp)
    | cons b t2 =>
      by_cases hab : a = b
      · subst hab
        rw [ih t2 hperm.cons_inv (List.pairwise_cons.1 h1).2 (List.pairwise_cons.1 h2).2]
      · have ha2 : a ∈ t2 := by
          have := hperm.mem_iff.1 (List.mem_cons_self a t1)
          rcases List.mem_cons.1 this with h' | h'
          · exact absurd h' hab
          · exact h'
        have hb1 : b ∈ t1 := by
          have := hperm.symm.mem_iff.1 (List.mem_cons_self b t2)
          rcases List.mem_cons.1 this with h' | h'
          · exact absurd h'.symm hab
          · exact h'
        have hRab : R a b := List.rel_of_pairwise_cons h1 hb1
        have hRba : R b a := List.rel_of_pairwise_cons h2 ha2
        exact absurd hRba (hasym a b hRab)

theorem insertSortedM_pure {α : Type} (ltM : α → α → Except PyError Bool)
    (ltB : α → α → Bool) (x : α) :
    ∀ l : List α, (∀ y ∈ l, ltM x y = .ok (ltB x y)) →
      insertSortedM ltM x l = .ok (insertSorted ltB x l) := by
  intro l
  induction l with
  | nil => intro _; rfl
  | cons h t ih =>
    intro hok
    rw [insertSortedM, insertSorted]
    rw [hok h (List.mem_cons_self _ _)]
    simp only [Bind.bind, Except.bind]
    by_cases hx : ltB x h = true
    · rw [if_pos hx, if_pos hx]
      rfl
    · rw [if_neg hx, if_neg hx]
      rw [ih (fun y hy => hok y (List.mem_cons_of_mem _ hy))]
      rfl

theorem stableSortM_pure {α : Type} (ltM : α → α → Except PyError Bool)
    (ltB : α → α → Bool) :
    ∀ (xs acc : List α),
      (∀ x ∈ xs, ∀ y ∈ acc, ltM x y = .ok (ltB x y)) →
      xs.Pairwise (fun a b => ltM b a = .ok (ltB b a)) →
      xs.foldlM (fun acc x => insertSortedM ltM x acc) acc =
        .ok (xs.foldl (fun acc x => insertSorted ltB x acc) acc) := by
  intro xs
  induction xs with
  | nil => intro acc _ _; rfl
  | cons x rest ih =>
    intro acc hxa hxs
    rw [List.foldlM_cons, List.foldl_cons]
    rw [insertSortedM_pure ltM ltB x acc (fun y hy => hxa x (List.mem_cons_self _ _) y hy)]
    simp only [Bind.bind, Except.bind]
    refine ih (insertSorted ltB x acc) ?_ (List.pairwise_cons.1 hxs).2
    intro z hz y hy
    rcases (mem_insertSorted ltB x y acc).1 hy with rfl | hy'
    · exact List.rel_of_pairwise_cons hxs hz
    · exact hxa z (List.mem_cons_of_mem _ hz) y hy'

theorem encode_pairs_perm (f : Value → Except PyError (List Nat)) :
    ∀ (d1 d2 : List (Value × Value)) (ps1 : List ((List Nat × Value) × List Nat)),
      d1.Perm d2 → encode_pairs f d1 = .ok ps1 →
      ∃ ps2, encode_pairs f d2 = .ok ps2 ∧ ps1.Perm ps2 := by
  intro d1 d2 ps1 hperm
  induction hperm generalizing ps1 with
  | nil =>
    intro h
    exact ⟨ps1, h, List.Perm.refl _⟩
  | cons kv hperm ih =>
    rename_i l1 l2
    intro h
    rw [encode_pairs] at h
    rcases hk : f kv.1 with e | ek <;> rw [hk] at h
    · simp only [Bind.bind, Except.bind] at h; cases h
    rcases hv : f kv.2 with e | ev <;> rw [hv] at h
    · simp only [Bind.bind, Except.bind] at h; cases h
    rcases hrest : encode_pairs f l1 with e | ps <;>
      simp only [Bind.bind, Except.bind] at h <;> rw [hrest] at h
    · cases h
    simp only [Pure.pure, Except.pure, Except.ok.injEq] at h
    subst h
    obtain ⟨ps2, hps2, hp⟩ := ih _ hrest
    refine ⟨((ek, kv.2), ev) :: ps2, ?_, hp.cons _⟩
    rw [encode_pairs, hk, hv, hps2]
    rfl
  | swap x y l =>
    intro h
    rw [encode_pairs] at h
    rcases hyk : f y.1 with e | yk <;> rw [hyk] at h
    · simp only [Bind.bind, Except.bind] at h; cases h
    rcases hyv : f y.2 with e | yv <;> rw [hyv] at h
    · simp only [Bind.bind, Except.bind] at h; cases h
    rw [encode_pairs] at h
    rcases hxk : f x.1 with e | xk <;> rw [hxk] at h
    · simp only [Bind.bind, Except.bind] at h; cases h
    rcases hxv : f x.2 with e | xv <;> rw [hxv] at h
    · simp only [Bind.bind, Except.bind] at h; cases h
    rcases hrest : encode_pairs f l with e | ps <;> rw [hrest] at h
    · simp only [Bind.bind, Except.bind] at h; cases h
    simp only [Bind.bind, Except.bind, Pure.pure, Except.pure, Except.ok.injEq] at h
    subst h
    refine ⟨((xk, x.2), xv) :: ((yk, y.2), yv) :: ps, ?_, List.Perm.swap _ _ _⟩
    rw [encode_pairs, hxk, hxv, encode_pairs, hyk, hyv, hrest]
    rfl
  | trans h12 h23 ih12 ih23 =>
    intro h
    obtain ⟨psb, hb, hpb⟩ := ih12 _ h
    obtain ⟨psc, hc, hpc⟩ := ih23 _ hb
    exact ⟨psc, hc, hpb.trans hpc⟩

/-- C10 counterexample: the dicts `{(1,2): 0, (2,1): False}` and
`{(2,1): False, (1,2): 0}` hold the same key-value pairs in the two
insertion orders, yet encode to different byte strings under the default
options.  `sorted_list_parts` sorts tuple contents, so the structurally
distinct keys `(1,2)` and `(2,1)` both serialize to `82 01 02`; the
lexicographic pair sort then compares the Python values `0` and `False`,
which are equal, and the stable sort keeps them in insertion order. -/
theorem C10_counterexample :
    [( (Value.list [Value.int 1, Value.int 2], Value.int 0) ),
     ( (Value.list [Value.int 2, Value.int 1], Value.bool false) )].Perm
      [( (Value.list [Value.int 2, Value.int 1], Value.bool false) ),
       ( (Value.list [Value.int 1, Value.int 2], Value.int 0) )] ∧
    encode default_encoder_options
        (.map [(.list [.int 1, .int 2], .int 0),
               (.list [.int 2, .int 1], .bool false)]) =
      .ok [0xa2, 0x82, 0x01, 0x02, 0x00, 0x82, 0x01, 0x02, 0xf4] ∧
    encode default_encoder_options
        (.map [(.list [.int 2, .int 1], .bool false),
               (.list [.int 1, .int 2], .int 0)]) =
      .ok [0xa2, 0x82, 0x01, 0x02, 0xf4, 0x82, 0x01, 0x02, 0x00] ∧
    ([0xa2, 0x82, 0x01, 0x02, 0x00, 0x82, 0x01, 0x02, 0xf4] : List Nat) ≠
      [0xa2, 0x82, 0x01, 0x02, 0xf4, 0x82, 0x01, 0x02, 0x00] := by
  exact ⟨List.Perm.swap _ _ _, rfl, rfl, by decide⟩

/-- C10 (amended): with the default options (deterministic, lexicographic
sorting by encoded key bytes), two dicts holding the same key-value pairs
in different insertion orders encode to identical bytes *provided the
encoded key byte strings are pairwise distinct*.  Stated both for
`_sorted_dict_parts` at any recursion depth and for `encode` itself.
Without the proviso the property fails (see the counterexample): keys that
are structurally distinct can serialize to identical bytes, the tie then
falls through to a Python comparison of the values, and the stable sort
preserves insertion order on full ties. -/
theorem C10_determinism_amended :
    (∀ (fuel : Nat) (d1 d2 : List (Value × Value))
        (ps1 : List ((List Nat × Value) × List Nat)),
      d1.Perm d2 →
      encode_pairs (generate_parts default_encoder_options fuel) d1 = .ok ps1 →
      (ps1.map (fun q => q.1.1)).Pairwise (fun a b => a ≠ b) →
      sorted_dict_parts default_encoder_options (fuel + 1) d1 .lexicographic =
        sorted_dict_parts default_encoder_options (fuel + 1) d2 .lexicographic) ∧
    (∀ (d1 d2 : List (Value × Value))
        (ps1 : List ((List Nat × Value) × List Nat)),
      d1.Perm d2 →
      encode_pairs (generate_parts default_encoder_options 997) d1 = .ok ps1 →
      (ps1.map (fun q => q.1.1)).Pairwise (fun a b => a ≠ b) →
      encode default_encoder_options (.map d1) =
        encode default_encoder_options (.map d2)) := by
  have hmain : ∀ (fuel : Nat) (d1 d2 : List (Value × Value))
      (ps1 : List ((List Nat × Value) × List Nat)),
      d1.Perm d2 →
      encode_pairs (generate_parts default_encoder_options fuel) d1 = .ok ps1 →
      (ps1.map (fun q => q.1.1)).Pairwise (fun a b => a ≠ b) →
      sorted_dict_parts default_encoder_options (fuel + 1) d1 .lexicographic =
        sorted_dict_parts default_encoder_options (fuel + 1) d2 .lexicographic := by
    intro fuel d1 d2 ps1 hperm henc hdist
    obtain ⟨ps2, henc2, hp12⟩ :=
      encode_pairs_perm (generate_parts default_encoder_options fuel) d1 d2 ps1 hperm henc
    have hdist2 : (ps2.map (fun q => q.1.1)).Pairwise (fun a b => a ≠ b) :=
      ((hp12.map (fun q => q.1.1)).pairwise_iff (fun h => Ne.symm h)).1 hdist
    have hkey1 : ps1.Pairwise (fun a b => a.1.1 ≠ b.1.1) := List.pairwise_map.1 hdist
    have hkey2 : ps2.Pairwise (fun a b => a.1.1 ≠ b.1.1) := List.pairwise_map.1 hdist2
    have hok : ∀ a b : (List Nat × Value) × List Nat, a.1.1 ≠ b.1.1 →
        pair_lt a.1 b.1 = .ok (lexLtBytes a.1.1 b.1.1) := by
      intro a b hne
      rw [pair_lt, if_neg hne]
    have hpure : ∀ ps : List ((List Nat × Value) × List Nat),
        ps.Pairwise (fun a b => a.1.1 ≠ b.1.1) →
        stableSortM (fun a b => pair_lt a.1 b.1) ps =
          .ok (stableSort (fun a b => lexLtBytes a.1.1 b.1.1) ps) := by
      intro ps hps
      refine stableSortM_pure (fun a b => pair_lt a.1 b.1)
        (fun a b => lexLtBytes a.1.1 b.1.1) ps [] (by intro _ _ y hy; cases hy) ?_
      exact hps.imp (fun h => hok _ _ (Ne.symm h))
    have htrans : ∀ a b c : (List Nat × Value) × List Nat,
        lexLtBytes a.1.1 b.1.1 = true → lexLtBytes b.1.1 c.1.1 = true →
        lexLtBytes a.1.1 c.1.1 = true :=
      fun a b c => lexLtBytes_trans a.1.1 b.1.1 c.1.1
    have hsorted : ∀ ps : List ((List Nat × Value) × List Nat),
        ps.Pairwise (fun a b => a.1.1 ≠ b.1.1) →
        (stableSort (fun a b => lexLtBytes a.1.1 b.1.1) ps).Pairwise
          (fun a b => lexLtBytes a.1.1 b.1.1 = true) := by
      intro ps hps
      refine stableSort_sorted (fun a b => lexLtBytes a.1.1 b.1.1) htrans ps []
        (List.Pairwise.nil) (by intro _ _ y hy; cases hy) ?_
      exact hps.imp (fun h => lexLtBytes_total _ _ h)
    have hperm1 : (stableSort (fun a b => lexLtBytes a.1.1 b.1.1) ps1).Perm ps1 := by
      simpa using stableSort_perm (fun a b => lexLtBytes a.1.1 b.1.1) ps1 []
    have hperm2 : (stableSort (fun a b => lexLtBytes a.1.1 b.1.1) ps2).Perm ps2 := by
      simpa using stableSort_perm (fun a b => lexLtBytes a.1.1 b.1.1) ps2 []
    have hseq : stableSort (fun a b => lexLtBytes a.1.1 b.1.1) ps1 =
        stableSort (fun a b => lexLtBytes a.1.1 b.1.1) ps2 := by
      refine @eq_of_perm_of_pairwise_asymm ((List Nat × Value) × List Nat)
        (fun a b => lexLtBytes a.1.1 b.1.1 = true)
        ?_ _ _ (hperm1.trans (hp12.trans hperm2.symm)) (hsorted ps1 hkey1) (hsorted ps2 hkey2)
      intro a b hab hba
      rw [lexLtBytes_asymm _ _ hab] at hba
      cases hba
    have e1 : sorted_dict_parts default_encoder_options (fuel + 1) d1 .lexicographic =
        (do
          let hdr ← length_parts d1.length 0xa0
          let pairs ← encode_pairs (generate_parts default_encoder_options fuel) d1
          let sorted ← sorted_pairs_gen (fun a b => pair_lt a.1 b.1) pairs .lexicographic
          pure (hdr ++ (sorted.map (fun q => q.1.1 ++ q.2)).flatten)) := rfl
    have e2 : sorted_dict_parts default_encoder_options (fuel + 1) d2 .lexicographic =
        (do
          let hdr ← length_parts d2.length 0xa0
          let pairs ← encode_pairs (generate_parts default_encoder_options fuel) d2
          let sorted ← sorted_pairs_gen (fun a b => pair_lt a.1 b.1) pairs .lexicographic
          pure (hdr ++ (sorted.map (fun q => q.1.1 ++ q.2)).flatten)) := rfl
    have hsg1 : sorted_pairs_gen (fun a b => pair_lt a.1 b.1) ps1 .lexicographic =
        .ok (stableSort (fun a b => lexLtBytes a.1.1 b.1.1) ps1) := hpure ps1 hkey1
    have hsg2 : sorted_pairs_gen (fun a b => pair_lt a.1 b.1) ps2 .lexicographic =
        .ok (stableSort (fun a b => lexLtBytes a.1.1 b.1.1) ps2) := hpure ps2 hkey2
    rw [e1, e2, hperm.length_eq]
    simp only [Bind.bind, Except.bind]
    rcases hhdr : length_parts d2.length 0xa0 with e | hdr
    · rfl
    rw [henc, henc2]
    dsimp only
    rw [hsg1, hsg2, hseq]
  refine ⟨hmain, ?_⟩
  intro d1 d2 ps1 hperm henc hdist
  have h1 : encode default_encoder_options (.map d1) =
      sorted_dict_parts default_encoder_options 998 d1 .lexicographic := rfl
  have h2 : encode default_encoder_options (.map d2) =
      sorted_dict_parts default_encoder_options 998 d2 .lexicographic := rfl
  rw [h1, h2]
  exact hmain 997 d1 d2 ps1 hperm henc hdist

/-- C10 witness: two insertion orders of `{1: 2, 3: 4}` — whose encoded
keys `01` and `03` are distinct — encode identically. -/
theorem C10_determinism_amended_witness :
    encode default_encoder_options
        (.map [(.int 1, .int 2), (.int 3, .int 4)]) =
      encode default_encoder_options
        (.map [(.int 3, .int 4), (.int 1, .int 2)]) := by
  exact C10_determinism_amended.2
    [(.int 1, .int 2), (.int 3, .int 4)]
    [(.int 3, .int 4), (.int 1, .int 2)]
    [(([0x01], Value.int 2), [0x02]), (([0x03], Value.int 4), [0x04])]
    (List.Perm.swap _ _ _) rfl (by simp)

end CborX
